import Mathlib

/-!
Verification development for the OneHome portfolio generator
(`src/server.js`, `src/generate-portfolio.js`, `src/api/generate-portfolio.js`).

The JavaScript sources are shallowly embedded:

* JSON values are the inductive `JVal`; a possibly-absent (`undefined`)
  value is `Option JVal`.
* JavaScript truthiness (`if (x)`, `x || y`) is `jsTruthy` / explicit
  fallback chains.
* The runtime builtins `JSON.parse` and `Date` parsing are taken as
  parameters (`dec : String → Option JVal`, `dateMs : String → Option Int`,
  `none` playing the role of a parse failure / `NaN`); concrete theorems
  instantiate them.
* `Array.prototype.sort(cmp)` is modelled as a stable insertion sort with
  respect to the boolean relation `cmp a b ≤ 0`; per the ECMAScript
  specification a comparator result of `NaN` is coerced to `+0` and a
  stable order is mandated for consistent comparators.
* The docx node tree is abstracted to `DocElem` (headings, paragraphs,
  bullets, page breaks, images); purely visual metadata (spacing, fonts,
  colours, shading) is elided.
-/

namespace OneHome

/-- JSON-like runtime value (no `undefined`: absence is `Option`). -/
inductive JVal where
  | str : String → JVal
  | num : Int → JVal
  | bool : Bool → JVal
  | null : JVal
  | arr : List JVal → JVal
  | obj : List (String × JVal) → JVal

/-- JavaScript truthiness of a value: `null`, `false`, `0` and `""` are
falsy, everything else (including `[]` and `{}`) is truthy. -/
def jsTruthy : JVal → Bool
  | .null => false
  | .bool b => b
  | .num n => n != 0
  | .str s => s ≠ ""
  | .arr _ => true
  | .obj _ => true

/-- Truthiness of a possibly-`undefined` value. -/
def jsTruthyO : Option JVal → Bool
  | none => false
  | some v => jsTruthy v

/-- Property lookup on a (duplicate-free) JS object, `undefined` if absent. -/
def jget (k : String) : List (String × JVal) → Option JVal
  | [] => none
  | (k', v) :: rest => if k' = k then some v else jget k rest

/-- Property lookup on an arbitrary value: non-objects have no own
properties (accessing a property of `null` would throw in JS; that crash
is outside this embedding). -/
def jgetV (k : String) : JVal → Option JVal
  | .obj fields => jget k fields
  | _ => none

/-- `String(v)` coercion (arrays join with `,`, objects print as
`[object Object]`). -/
def jStringOf : JVal → String
  | .str s => s
  | .num n => toString n
  | .bool b => if b then "true" else "false"
  | .null => "null"
  | .arr l => String.intercalate "," (l.map jStringOfShallow)
  | .obj _ => "[object Object]"
where
  /-- One-level stringification used for array elements. -/
  jStringOfShallow : JVal → String
  | .str s => s
  | .num n => toString n
  | .bool b => if b then "true" else "false"
  | .null => ""
  | .arr _ => ""
  | .obj _ => "[object Object]"

/-- ASCII whitespace stripped by `String.prototype.trim` (the further
Unicode space code points JS also strips do not occur in this data). -/
def isJsWs (c : Char) : Bool :=
  c = ' ' || c = '\t' || c = '\n' || c = '\r' || c = '\x0b' || c = '\x0c'

/-- `s.trim()`. -/
def jsTrim (s : String) : String :=
  ⟨(s.data.dropWhile isJsWs).reverse.dropWhile isJsWs |>.reverse⟩

/-- `x || d` for a possibly-absent string (empty string is falsy). -/
def strD (x : Option String) (d : String) : String :=
  match x with
  | none => d
  | some s => if s = "" then d else s

/-- First truthy string of a JS `a || b || …` chain, else the default. -/
def firstTruthyStr : List (Option String) → String → String
  | [], d => d
  | x :: rest, d =>
      match x with
      | some s => if s = "" then firstTruthyStr rest d else s
      | none => firstTruthyStr rest d

end OneHome

namespace OneHome

/-! ### Stable sort modelling `Array.prototype.sort(cmp)` -/

/-- Insert `x` in front of the first element it should precede
(weakly), keeping it after earlier elements that tie with it. -/
def insertTie {α : Type} (le : α → α → Bool) (x : α) : List α → List α
  | [] => [x]
  | y :: rest => if le x y then x :: y :: rest else y :: insertTie le x rest

/-- Stable sort with respect to the boolean relation `le`; this is the
unique stable order a spec-conforming JS `sort` produces for a consistent
comparator `cmp` with `le a b := cmp a b ≤ 0`. -/
def sortJS {α : Type} (le : α → α → Bool) : List α → List α
  | [] => []
  | x :: rest => insertTie le x (sortJS le rest)

theorem insertTie_perm {α : Type} (le : α → α → Bool) (x : α) (l : List α) :
    List.Perm (insertTie le x l) (x :: l) := by
  induction l with
  | nil => simp [insertTie]
  | cons y rest ih =>
      simp only [insertTie]
      by_cases h : le x y = true
      · simp [h]
      · simp only [h]
        exact ((ih.cons y).trans (List.Perm.swap x y rest)).symm.symm

theorem sortJS_perm {α : Type} (le : α → α → Bool) (l : List α) :
    List.Perm (sortJS le l) l := by
  induction l with
  | nil => simp [sortJS]
  | cons x rest ih =>
      exact (insertTie_perm le x (sortJS le rest)).trans (ih.cons x)

theorem mem_insertTie {α : Type} {le : α → α → Bool} {x z : α} {l : List α}
    (h : z ∈ insertTie le x l) : z = x ∨ z ∈ l := by
  have := (insertTie_perm le x l).mem_iff.mp h
  simpa using this

theorem mem_sortJS {α : Type} {le : α → α → Bool} {z : α} {l : List α}
    (h : z ∈ sortJS le l) : z ∈ l :=
  (sortJS_perm le l).mem_iff.mp h

theorem insertTie_pairwise {α : Type} {le : α → α → Bool} {x : α} {l : List α}
    (total : ∀ b ∈ l, le x b = true ∨ le b x = true)
    (trans : ∀ a b c, (a = x ∨ a ∈ l) → (b = x ∨ b ∈ l) → (c = x ∨ c ∈ l) →
        le a b = true → le b c = true → le a c = true)
    (hl : l.Pairwise (fun a b => le a b = true)) :
    (insertTie le x l).Pairwise (fun a b => le a b = true) := by
  induction l with
  | nil => simp [insertTie]
  | cons y rest ih =>
      rcases List.pairwise_cons.mp hl with ⟨hy, hrest⟩
      simp only [insertTie]
      by_cases h : le x y = true
      · rw [if_pos h]
        refine List.Pairwise.cons ?_ hl
        intro z hz
        rcases List.mem_cons.mp hz with rfl | hz
        · exact h
        · exact trans x y z (Or.inl rfl) (Or.inr (by simp))
            (Or.inr (by simp [hz])) h (hy z hz)
      · rw [if_neg h]
        have hyx : le y x = true := by
          rcases total y (by simp) with hxy | hyx
          · exact absurd hxy h
          · exact hyx
        refine List.Pairwise.cons ?_ ?_
        · intro z hz
          rcases mem_insertTie hz with rfl | hz
          · exact hyx
          · exact hy z hz
        · refine ih (fun b hb => total b (by simp [hb])) ?_ hrest
          intro a b c ha hb hc
          refine trans a b c ?_ ?_ ?_ <;>
            first
            | exact ha.imp id (fun m => by simp [m])
            | exact hb.imp id (fun m => by simp [m])
            | exact hc.imp id (fun m => by simp [m])

theorem sortJS_pairwise {α : Type} {le : α → α → Bool} {l : List α}
    (total : ∀ a ∈ l, ∀ b ∈ l, le a b = true ∨ le b a = true)
    (trans : ∀ a ∈ l, ∀ b ∈ l, ∀ c ∈ l,
        le a b = true → le b c = true → le a c = true) :
    (sortJS le l).Pairwise (fun a b => le a b = true) := by
  induction l with
  | nil => simp [sortJS]
  | cons x rest ih =>
      simp only [sortJS]
      have hmem : ∀ z ∈ sortJS le rest, z ∈ rest := fun z hz => mem_sortJS hz
      have hmx : ∀ z, (z = x ∨ z ∈ sortJS le rest) → z ∈ x :: rest := by
        intro z hz
        rcases hz with rfl | hz
        · simp
        · simp [hmem z hz]
      refine insertTie_pairwise ?_ ?_ ?_
      · intro b hb
        rcases total x (by simp) b (hmx b (Or.inr hb)) with h | h
        · exact Or.inl h
        · exact Or.inr h
      · intro a b c ha hb hc
        exact trans a (hmx a ha) b (hmx b hb) c (hmx c hc)
      · exact ih (fun a ha b hb => total a (by simp [ha]) b (by simp [hb]))
          (fun a ha b hb c hc => trans a (by simp [ha]) b (by simp [hb]) c (by simp [hc]))

theorem sortJS_countP {α : Type} (le : α → α → Bool) (p : α → Bool) (l : List α) :
    (sortJS le l).countP p = l.countP p :=
  (sortJS_perm le l).countP_eq p

end OneHome

namespace OneHome

/-!
### Input Normalizer — `parseMakeComData` (src/server.js lines 48–116)

`JSON.parse` is taken as a parameter `dec : String → Option JVal`
(`none` = thrown `SyntaxError`).  `parseMakeComData`'s argument may be
`undefined`, hence `Option JVal`.
-/

/-- `typeof item === 'object' && item` — the filter used by the
object-values fallback (arrays are objects in JS; `null` is falsy). -/
def isObjLike : JVal → Bool
  | .obj _ => true
  | .arr _ => true
  | _ => false

/-- Object branch shared by the string and object cases: if the object's
`array` property is an array, unwrap it, else keep its own property
values that are themselves objects. -/
def unwrapObjectData (fields : List (String × JVal)) : List JVal :=
  match jget "array" fields with
  | some (.arr l) => l
  | _ => (fields.map Prod.snd).filter isObjLike

/-- The string branch's re-decode loop: keep calling `dec` while the
result is still a string and fewer than `fuel` (initially 5) decodes
succeeded; a failed decode breaks out leaving the last value. -/
def decodeRounds (dec : String → Option JVal) : Nat → String → JVal
  | 0, s => .str s
  | fuel + 1, s =>
      match dec s with
      | none => .str s
      | some (.str t) => decodeRounds dec fuel t
      | some v => v

/-- Number of decode attempts (`dec` invocations) the loop makes. -/
def decodeCalls (dec : String → Option JVal) : Nat → String → Nat
  | 0, _ => 0
  | fuel + 1, s =>
      match dec s with
      | none => 1
      | some (.str t) => 1 + decodeCalls dec fuel t
      | some _ => 1

/-- The string case of `parseMakeComData`: run the decode loop, then
return the array, unwrap an object, or give up with `[]`. -/
def parseStringData (dec : String → Option JVal) (s : String) : List JVal :=
  match decodeRounds dec 5 s with
  | .arr l => l
  | .obj fields => unwrapObjectData fields
  | _ => []

/-- `parseMakeComData(data, fieldName)` (src/server.js lines 48–116),
minus its logging: array → as-is; falsy → `[]`; non-empty string →
decode loop; object → unwrap; anything else → `[]`. -/
def parseMakeComData (dec : String → Option JVal) : Option JVal → List JVal
  | some (.arr l) => l
  | none => []
  | some .null => []
  | some (.bool false) => []
  | some (.bool true) => []
  | some (.num n) => if n = 0 then [] else []
  | some (.str s) => if s = "" then [] else parseStringData dec s
  | some (.obj fields) => unwrapObjectData fields

/-- `ensureArray(data)` (src/generate-portfolio.js lines 1237–1266):
like the object branch of `parseMakeComData` but without string decoding,
and its object-values fallback additionally drops nested arrays and
returns `[]` when nothing survives. -/
def ensureArray : Option JVal → List JVal
  | some (.arr l) => l
  | none => []
  | some .null => []
  | some (.bool false) => []
  | some (.bool true) => []
  | some (.num _) => []
  | some (.str s) =>
      if s = "" then []
      else []
  | some (.obj fields) =>
      match jget "array" fields with
      | some (.arr l) => l
      | some v =>
          if jsTruthy v then []
          else ensureArrayValues fields
      | none => ensureArrayValues fields
where
  /-- `Object.values(data).filter(item => item && typeof item === 'object'
  && !Array.isArray(item))`, returning `[]` if nothing survives. -/
  ensureArrayValues (fields : List (String × JVal)) : List JVal :=
    let values := (fields.map Prod.snd).filter (fun v =>
      match v with
      | .obj _ => true
      | _ => false)
    if values.length > 0 then values else []

end OneHome

namespace OneHome

theorem decodeCalls_le (dec : String → Option JVal) :
    ∀ (n : Nat) (s : String), decodeCalls dec n s ≤ n := by
  intro n
  induction n with
  | zero => intro s; simp [decodeCalls]
  | succ m ih =>
      intro s
      simp only [decodeCalls]
      cases h : dec s with
      | none => simp
      | some v =>
          cases v with
          | str t => simp only []; have := ih t; omega
          | num n => simp
          | bool b => simp
          | null => simp
          | arr l => simp
          | obj f => simp

/-- Claim C5: the string normalizer makes at most 5 decode attempts; it
stops at the first non-string decode result (array → returned, object →
wrapper/object-values rules, scalar → `[]`); a first-decode failure
yields `[]`; and whenever the loop's final value is an object rather
than a list, the wrapper/object-values rules apply. -/
theorem c5_decode_loop (dec : String → Option JVal) (s : String) :
    decodeCalls dec 5 s ≤ 5
    ∧ (dec s = none → parseStringData dec s = [])
    ∧ (∀ l, dec s = some (.arr l) → parseStringData dec s = l)
    ∧ (∀ f, dec s = some (.obj f) → parseStringData dec s = unwrapObjectData f)
    ∧ (∀ n, dec s = some (.num n) → parseStringData dec s = [])
    ∧ (∀ b, dec s = some (.bool b) → parseStringData dec s = [])
    ∧ (dec s = some .null → parseStringData dec s = [])
    ∧ (∀ l, decodeRounds dec 5 s = .arr l → parseStringData dec s = l)
    ∧ (∀ f, decodeRounds dec 5 s = .obj f → parseStringData dec s = unwrapObjectData f)
    ∧ (∀ t, decodeRounds dec 5 s = .str t → parseStringData dec s = []) := by
  refine ⟨decodeCalls_le dec 5 s, ?_, ?_, ?_, ?_, ?_, ?_, ?_, ?_, ?_⟩
  · intro h; simp [parseStringData, decodeRounds, h]
  · intro l h; simp [parseStringData, decodeRounds, h]
  · intro f h; simp [parseStringData, decodeRounds, h]
  · intro n h; simp [parseStringData, decodeRounds, h]
  · intro b h; simp [parseStringData, decodeRounds, h]
  · intro h; simp [parseStringData, decodeRounds, h]
  · intro l h; simp [parseStringData, h]
  · intro f h; simp [parseStringData, h]
  · intro t h; simp [parseStringData, h]

/-- Witness for C5 at a decoder that always fails and at one that decodes
to an object: concrete runs of the string normalizer. -/
theorem c5_decode_loop_witness :
    parseStringData (fun _ => none) "x" = []
    ∧ parseStringData (fun _ => some (.obj [("a", .num 1)])) "x"
        = unwrapObjectData [("a", .num 1)] :=
  ⟨(c5_decode_loop (fun _ => none) "x").2.1 rfl,
   (c5_decode_loop (fun _ => some (.obj [("a", .num 1)])) "x").2.2.2.1
     [("a", .num 1)] rfl⟩

/-- Claim C9: both normalizers are the identity on inputs that are already
lists, and hence idempotent: re-normalizing a normalized result is a
no-op, for every decoder and every input value. -/
theorem c9_normalizer_identity_idempotent
    (dec : String → Option JVal) (a : List JVal) (x : Option JVal) :
    parseMakeComData dec (some (.arr a)) = a
    ∧ parseMakeComData dec (some (.arr (parseMakeComData dec x)))
        = parseMakeComData dec x
    ∧ ensureArray (some (.arr a)) = a
    ∧ ensureArray (some (.arr (ensureArray x))) = ensureArray x :=
  ⟨rfl, rfl, rfl, rfl⟩

end OneHome

namespace OneHome

/-!
### Outcome Matcher & Filter (src/generate-portfolio.js lines 829–856)

The two regular expressions are embedded as backtracking parsers over
`List Char`:

* `codeMatchAt`/`findCode` — the unanchored search
  `/([A-Z]{2,3}\d?-[A-Z]{2,6}-\d{2})/` with JS leftmost-then-greedy
  semantics (counts tried largest first, optional digit tried first,
  full continuation backtracking);
* `nswTest` — the anchored NSW filter
  `/^(EN|MA|ST|HS|PH|CA)\d-[A-Z]{2,6}-\d{2}$/`.
-/

def isUpperCh (c : Char) : Bool := 'A' ≤ c && c ≤ 'Z'

def isDigitCh (c : Char) : Bool := '0' ≤ c && c ≤ '9'

/-- First alternative that parses, in order — regex alternation. -/
def firstSome {α β : Type} (f : α → Option β) : List α → Option β
  | [] => none
  | x :: xs =>
      match f x with
      | some r => some r
      | none => firstSome f xs

/-- Exactly `n` uppercase letters. -/
def pLetters : Nat → List Char → Option (List Char × List Char)
  | 0, cs => some ([], cs)
  | _ + 1, [] => none
  | n + 1, c :: cs =>
      if isUpperCh c then
        match pLetters n cs with
        | some (t, r) => some (c :: t, r)
        | none => none
      else none

def pDigit : List Char → Option (Char × List Char)
  | c :: cs => if isDigitCh c then some (c, cs) else none
  | [] => none

def pHyphen : List Char → Option (List Char)
  | c :: cs => if c = '-' then some cs else none
  | [] => none

/-- `[A-Z]{2,6}-\d{2}` with greedy letter count (6 first). -/
def codeAfterHyphen (cs : List Char) : Option (List Char) :=
  firstSome (fun k =>
    match pLetters k cs with
    | none => none
    | some (ls, r2) =>
        match pHyphen r2 with
        | none => none
        | some r3 =>
            match pDigit r3 with
            | none => none
            | some (d1, r4) =>
                match pDigit r4 with
                | none => none
                | some (d2, _) => some (ls ++ ['-', d1, d2])) [6, 5, 4, 3, 2]

/-- `\d?-[A-Z]{2,6}-\d{2}`: optional digit (greedy), hyphen, tail. -/
def codeMatchTail (cs : List Char) : Option (List Char) :=
  let withDigit :=
    match pDigit cs with
    | none => none
    | some (d, r) =>
        match pHyphen r with
        | none => none
        | some r1 =>
            match codeAfterHyphen r1 with
            | none => none
            | some rest => some (d :: '-' :: rest)
  match withDigit with
  | some m => some m
  | none =>
      match pHyphen cs with
      | none => none
      | some r1 =>
          match codeAfterHyphen r1 with
          | none => none
          | some rest => some ('-' :: rest)

/-- Match of the code grammar starting at the head of `cs` (greedy
2–3 leading letters, 3 first), returning the matched characters. -/
def codeMatchAt (cs : List Char) : Option (List Char) :=
  firstSome (fun k =>
    match pLetters k cs with
    | none => none
    | some (l1, r1) =>
        match codeMatchTail r1 with
        | none => none
        | some t => some (l1 ++ t)) [3, 2]

/-- Leftmost match of the code grammar anywhere in the string —
`displayText.match(/([A-Z]{2,3}\d?-[A-Z]{2,6}-\d{2})/)`. -/
def findCode : List Char → Option (List Char)
  | [] => none
  | c :: cs =>
      match codeMatchAt (c :: cs) with
      | some m => some m
      | none => findCode cs

/-- Per-candidate transform (lines 850–855): trim, and replace the text
with the first embedded grammar match when one exists. -/
def extractDisplay (s : String) : String :=
  let t := jsTrim s
  match findCode t.data with
  | some m => ⟨m⟩
  | none => t

/-- The six NSW key-learning-area code prefixes of the anchored filter. -/
def nswPrefixes : List (Char × Char) :=
  [('E', 'N'), ('M', 'A'), ('S', 'T'), ('H', 'S'), ('P', 'H'), ('C', 'A')]

/-- `/^(EN|MA|ST|HS|PH|CA)\d-[A-Z]{2,6}-\d{2}$/.test(s)`.  Anchored, so
the 2–6 letter block must be the entire letter run before the second
hyphen. -/
def nswTest (s : String) : Bool :=
  match s.data with
  | a :: b :: d :: '-' :: r1 =>
      decide ((a, b) ∈ nswPrefixes) && isDigitCh d &&
        (let run := r1.takeWhile isUpperCh
         let rest := r1.dropWhile isUpperCh
         decide (2 ≤ run.length) && decide (run.length ≤ 6) &&
           (match rest with
            | '-' :: d1 :: d2 :: [] => isDigitCh d1 && isDigitCh d2
            | _ => false))
  | _ => false

/-- Lines 849–856: map each candidate through the grammar extraction and
keep only those passing the NSW filter. -/
def filterOutcomes (cands : List String) : List String :=
  (cands.map extractDisplay).filter nswTest

/-- Exact full-string match of the claim's grammar (2–3 letters, optional
digit, hyphen, 2–6 letters, hyphen, 2 digits). -/
def grammarFull (s : String) : Bool :=
  match codeMatchAt s.data with
  | some m => decide (m = s.data)
  | none => false

end OneHome

namespace OneHome

/-- Claim C1 counterexample: `"AB1-CD-01"` matches the stated code
grammar exactly, yet the rendered outcome list suppresses it — the
filter additionally requires one of the six NSW prefixes, so not every
grammar match is retained. -/
theorem c1_grammar_filter_cex :
    grammarFull "AB1-CD-01" = true ∧ filterOutcomes ["AB1-CD-01"] = [] := by
  constructor
  · decide
  · decide

/-- Claim C1 (amended): filtering retains exactly the candidates whose
extracted code passes the anchored NSW pattern (prefix EN/MA/ST/HS/PH/CA,
digit, hyphen, 2–6 letters, hyphen, 2 digits); grammar matches with other
prefixes are suppressed.  In particular, from
`["EN2-OLC-01", "AC9E2LY01", "garbage"]` only `"EN2-OLC-01"` survives. -/
theorem c1_nsw_filter (cands : List String) :
    (∀ s ∈ filterOutcomes cands, nswTest s = true)
    ∧ (∀ c ∈ cands, nswTest (extractDisplay c) = true →
        extractDisplay c ∈ filterOutcomes cands)
    ∧ (∀ s, s ∈ filterOutcomes cands ↔
        ∃ c ∈ cands, extractDisplay c = s ∧ nswTest s = true)
    ∧ filterOutcomes ["EN2-OLC-01", "AC9E2LY01", "garbage"] = ["EN2-OLC-01"] := by
  refine ⟨?_, ?_, ?_, by decide⟩
  · intro s hs
    exact (List.mem_filter.mp hs).2
  · intro c hc h
    exact List.mem_filter.mpr ⟨List.mem_map_of_mem extractDisplay hc, h⟩
  · intro s
    constructor
    · intro hs
      rcases List.mem_filter.mp hs with ⟨hmap, hnsw⟩
      rcases List.mem_map.mp hmap with ⟨c, hc, rfl⟩
      exact ⟨c, hc, rfl, hnsw⟩
    · rintro ⟨c, hc, rfl, hnsw⟩
      exact List.mem_filter.mpr ⟨List.mem_map_of_mem extractDisplay hc, hnsw⟩

/-- Witness for C1's amended theorem: a retained NSW code at a concrete
candidate list. -/
theorem c1_nsw_filter_witness :
    "EN2-OLC-01" ∈ filterOutcomes ["EN2-OLC-01", "garbage"] := by
  have h := (c1_nsw_filter ["EN2-OLC-01", "garbage"]).2.1
    "EN2-OLC-01" (by decide)
  have hx : extractDisplay "EN2-OLC-01" = "EN2-OLC-01" := by decide
  have := h (by rw [hx]; decide)
  rwa [hx] at this

end OneHome

namespace OneHome

/-!
### Evidence entries and the flat deduplicated view
(src/generate-portfolio.js lines 720–961)

An evidence record's used fields, typed (`Option` = absent property).
`attachments` keeps only the per-attachment `buffer` presence needed for
rendering; image bytes and dimensions are external data.
-/

structure Entry where
  title : Option String := none
  date : Option String := none
  description : Option String := none
  engagement : Option String := none
  matchedOutcomes : Option JVal := none
  attachments : List Bool := []

/-- The dedup key: `evidence.title || 'Untitled'` (line 750). -/
def titleKey (e : Entry) : String := strD e.title "Untitled"

/-- Iteration of `Object.entries(evidenceByArea)` with each entry tagged
by its `primaryArea` (lines 740–759). -/
def collectAll (evA : List (String × List Entry)) : List (String × Entry) :=
  evA.flatMap (fun p => p.2.map (fun e => (p.1, e)))

/-- The `seenTitles` fold: keep the first occurrence of each title. -/
def dedupByTitle (seen : List String) : List (String × Entry) → List (String × Entry)
  | [] => []
  | (a, e) :: rest =>
      if titleKey e ∈ seen then dedupByTitle seen rest
      else (a, e) :: dedupByTitle (titleKey e :: seen) rest

/-- `uniqueEvidence` before sorting (lines 736–759). -/
def uniqueEvidence (evA : List (String × List Entry)) : List (String × Entry) :=
  dedupByTitle [] (collectAll evA)

/-- `new Date(a.date || 0)` as milliseconds: a missing/empty date is the
epoch (`new Date(0)`), otherwise the runtime's parse (`none` = Invalid
Date / NaN). -/
def entryMs (dateMs : String → Option Int) (e : Entry) : Option Int :=
  match e.date with
  | none => some 0
  | some s => if s = "" then some 0 else dateMs s

/-- The comparator of lines 762–766, `dateB - dateA`; per the ECMAScript
`SortCompare`, a NaN comparator result is coerced to `+0`. -/
def jsDateCompare (dateMs : String → Option Int) (x y : String × Entry) : Int :=
  match entryMs dateMs x.2, entryMs dateMs y.2 with
  | some a, some b => b - a
  | _, _ => 0

def dateLe (dateMs : String → Option Int) (x y : String × Entry) : Bool :=
  decide (jsDateCompare dateMs x y ≤ 0)

/-- The flat view: dedup by title, then stable sort most-recent-first. -/
def flatSorted (dateMs : String → Option Int)
    (evA : List (String × List Entry)) : List (String × Entry) :=
  sortJS (dateLe dateMs) (uniqueEvidence evA)

/-- Order-faithful concrete model of `Date.parse` on ISO `YYYY-MM-DD`
strings, used to instantiate the abstract date parser: day-granular
linearization (strictly monotone in the year/month/day lexicographic
order), scaled to milliseconds with the 1970 epoch at 0; everything else
is an Invalid Date. -/
def isoDateMs (s : String) : Option Int :=
  match s.data with
  | [y1, y2, y3, y4, '-', m1, m2, '-', d1, d2] =>
      if [y1, y2, y3, y4, m1, m2, d1, d2].all isDigitCh then
        let dv : Char → Int := fun c => (c.toNat : Int) - ('0'.toNat : Int)
        let y := dv y1 * 1000 + dv y2 * 100 + dv y3 * 10 + dv y4
        let m := dv m1 * 10 + dv m2
        let d := dv d1 * 10 + dv d2
        some (((y - 1970) * 372 + (m - 1) * 31 + (d - 1)) * 86400000)
      else none
  | _ => none

end OneHome

namespace OneHome

/-! ### Abstract document nodes -/

/-- A styled text run (font/size/colour elided). -/
structure TRun where
  text : String
  bold : Bool := false
  italics : Bool := false
deriving DecidableEq

/-- An abstract section node of the composed document. -/
inductive DocElem where
  | heading : Nat → List TRun → DocElem
  | par : List TRun → DocElem
  | bullet : List TRun → DocElem
  | pageBreak : DocElem
  | separator : DocElem
  | image : DocElem
  | spacer : DocElem
deriving DecidableEq

/-- Plain unstyled run. -/
def tr (s : String) : TRun := ⟨s, false, false⟩

/-- Bold run. -/
def trB (s : String) : TRun := ⟨s, true, false⟩

/-- Italic run. -/
def trI (s : String) : TRun := ⟨s, false, true⟩

end OneHome

namespace OneHome

/-!
### Rendering of the flat evidence sections
(src/generate-portfolio.js lines 768–961)
-/

/-- `outcome.startsWith('rec') && outcome.length === 17` — an opaque
record-ID reference that must not leak into output (line 838). -/
def isRecRef (s : String) : Bool :=
  s.startsWith "rec" && decide (s.length = 17)

/-- First truthy value of a JS `a || b || …` chain over JS values. -/
def jvalOrChain : List (Option JVal) → JVal → JVal
  | [], d => d
  | x :: rest, d =>
      match x with
      | some v => if jsTruthy v then v else jvalOrChain rest d
      | none => jvalOrChain rest d

/-- Lines 832–845: build the candidate outcome strings from
`matchedOutcomes` — a comma-joined string is split/trimmed; an array
keeps its strings (dropping opaque record refs) and renders its objects
as `code: description`, skipping empty ones. -/
def outcomesCandidates : JVal → List String
  | .str s => ((s.splitOn ",").map jsTrim).filter (fun o => o ≠ "")
  | .arr l =>
      l.flatMap (fun outcome =>
        match outcome with
        | .str o => if isRecRef o then [] else [o]
        | .obj f =>
            let text :=
              jStringOf (jvalOrChain [jget "code" f, jget "Outcome Title" f] (.str ""))
              ++ ": "
              ++ jStringOf (jvalOrChain [jget "description" f, jget "Outcome Description" f] (.str ""))
            if jsTrim text = ":" then [] else [text]
        | .arr _ => [] -- nested arrays are objects without the rendered fields
        | _ => [])
  | _ => []

/-- The guard of line 830: `matchedOutcomes && (Array.isArray(...) ?
length > 0 : toString().trim() !== '')`. -/
def showOutcomesBlock : Option JVal → Bool
  | none => false
  | some v =>
      jsTruthy v &&
        (match v with
         | .arr l => decide (l.length > 0)
         | _ => decide (jsTrim (jStringOf v) ≠ ""))

/-- Truthiness of an optional string field (`if (evidence.engagement)`). -/
def strTruthy : Option String → Bool
  | none => false
  | some s => decide (s ≠ "")

/-- The document nodes rendered for one flat evidence entry at position
`idx` (lines 769–957). -/
def flatEntrySections (idx : Nat) (fe : String × Entry) : List DocElem :=
  let e := fe.2
  (if idx > 0 then [DocElem.separator] else [])
  ++ [DocElem.par [⟨toString (idx + 1) ++ ". "
        ++ strD e.title ("Evidence " ++ toString (idx + 1)), true, false⟩]]
  ++ [DocElem.par [trB "Date: ", tr (strD e.date "Not specified")]]
  ++ [DocElem.par [trB "Description: ", tr (strD e.description "No description provided.")]]
  ++ (if showOutcomesBlock e.matchedOutcomes then
        let filtered := filterOutcomes (outcomesCandidates (e.matchedOutcomes.getD .null))
        if filtered.length > 0 then
          DocElem.par [trB "Syllabus Outcomes Addressed:"]
            :: filtered.map (fun t => DocElem.bullet [tr t])
        else []
      else [])
  ++ (if strTruthy e.engagement then
        [DocElem.par [trB "Child Engagement: ", tr (e.engagement.getD "")]]
      else [])
  ++ (if e.attachments.length > 0 then
        DocElem.par [trB "Evidence Photos:"]
          :: (e.attachments.filter id).map (fun _ => DocElem.image)
      else [])
  ++ [DocElem.spacer]

/-- `generateEvidenceSectionsFlat` (lines 720–961): explicit placeholder
when the grouped map is empty, else the deduplicated date-sorted entries
rendered in order. -/
def generateEvidenceSectionsFlat (dateMs : String → Option Int)
    (evA : List (String × List Entry)) : List DocElem :=
  if evA.length = 0 then
    [DocElem.par [trI "Detailed evidence will be documented as learning activities are recorded."]]
  else
    (flatSorted dateMs evA).enum.flatMap (fun p => flatEntrySections p.1 p.2)

end OneHome

namespace OneHome


theorem dedupByTitle_countP (t : String) :
    ∀ (l : List (String × Entry)) (seen : List String),
      (dedupByTitle seen l).countP (fun fe => titleKey fe.2 == t)
        = if t ∈ seen then 0
          else if l.any (fun fe => titleKey fe.2 == t) then 1 else 0 := by
  intro l
  induction l with
  | nil =>
      intro seen
      by_cases h : t ∈ seen <;> simp [dedupByTitle, h]
  | cons hd rest ih =>
      intro seen
      obtain ⟨a, e⟩ := hd
      by_cases hseen : titleKey e ∈ seen
      · rw [show dedupByTitle seen ((a, e) :: rest) = dedupByTitle seen rest from by
            simp [dedupByTitle, hseen]]
        rw [ih seen]
        by_cases ht : t ∈ seen
        · simp [ht]
        · have hne : ((titleKey e == t) : Bool) = false := by
            refine beq_eq_false_iff_ne.mpr ?_
            intro heq
            exact ht (heq ▸ hseen)
          simp only [List.any_cons, hne, Bool.false_or]
      · rw [show dedupByTitle seen ((a, e) :: rest)
            = (a, e) :: dedupByTitle (titleKey e :: seen) rest from by
            simp [dedupByTitle, hseen]]
        rw [List.countP_cons, ih (titleKey e :: seen)]
        by_cases hte : titleKey e = t
        · have ht : t ∉ seen := fun h => hseen (by rwa [hte])
          have hmem : t ∈ titleKey e :: seen := by simp [hte]
          have hbeq : ((titleKey e == t) : Bool) = true := by simp [hte]
          simp [hmem, ht, List.any_cons, hbeq]
        · have hne : ((titleKey e == t) : Bool) = false := by
            simpa using hte
          have hiff : (t ∈ titleKey e :: seen) ↔ t ∈ seen := by
            simp only [List.mem_cons]
            constructor
            · rintro (h | h)
              · exact absurd h.symm hte
              · exact h
            · exact Or.inr
          by_cases ht : t ∈ seen
          · simp [hiff.mpr ht, ht, hne]
          · have h2 : t ∉ titleKey e :: seen := fun h => ht (hiff.mp h)
            simp only [List.any_cons, hne, Bool.false_or]
            simp [h2, ht]

theorem dedupByTitle_keeps_first (t : String) (fe : String × Entry) :
    ∀ (l : List (String × Entry)) (seen : List String), t ∉ seen →
      l.find? (fun x => titleKey x.2 == t) = some fe →
      fe ∈ dedupByTitle seen l := by
  intro l
  induction l with
  | nil =>
      intro seen _ h
      simp [List.find?] at h
  | cons hd rest ih =>
      intro seen hts hfind
      obtain ⟨a, e⟩ := hd
      rw [List.find?_cons] at hfind
      by_cases hte : (titleKey e == t) = true
      · rw [show (titleKey ((a, e) : String × Entry).2 == t) = (titleKey e == t) from rfl,
          hte] at hfind
        have heq : ((a, e) : String × Entry) = fe := by
          exact Option.some.inj hfind
        have hkey : titleKey e = t := by simpa using hte
        have hnot : titleKey e ∉ seen := by
          rw [hkey]; exact hts
        rw [show dedupByTitle seen ((a, e) :: rest)
            = (a, e) :: dedupByTitle (titleKey e :: seen) rest from by
            simp [dedupByTitle, hnot]]
        exact heq ▸ List.mem_cons_self _ _
      · have hb : (titleKey e == t) = false := by simpa using hte
        rw [show (titleKey ((a, e) : String × Entry).2 == t) = (titleKey e == t) from rfl,
          hb] at hfind
        by_cases hseen : titleKey e ∈ seen
        · rw [show dedupByTitle seen ((a, e) :: rest) = dedupByTitle seen rest from by
              simp [dedupByTitle, hseen]]
          exact ih seen hts hfind
        · rw [show dedupByTitle seen ((a, e) :: rest)
              = (a, e) :: dedupByTitle (titleKey e :: seen) rest from by
              simp [dedupByTitle, hseen]]
          refine List.mem_cons_of_mem _ (ih (titleKey e :: seen) ?_ hfind)
          intro h
          rcases List.mem_cons.mp h with h | h
          · exact hte (by simp [h.symm])
          · exact hts h

/-- Claim C3 counterexample: two grouped entries share the title `"T"`;
the first-listed one is dated 2025-01-01 and the second 2025-06-01
(strictly more recent), yet the flat view keeps the first-listed,
*older* instance — dedup is first-occurrence-wins, not
most-recent-date. -/
theorem c3_dedup_cex :
    flatSorted isoDateMs [("English",
        [({ title := some "T", date := some "2025-01-01" } : Entry),
         ({ title := some "T", date := some "2025-06-01" } : Entry)])]
      = [("English", { title := some "T", date := some "2025-01-01" })]
    ∧ titleKey { title := some "T", date := some "2025-01-01" }
        = titleKey { title := some "T", date := some "2025-06-01" }
    ∧ (entryMs isoDateMs { title := some "T", date := some "2025-06-01" }).getD 0
        > (entryMs isoDateMs { title := some "T", date := some "2025-01-01" }).getD 0 := by
  refine ⟨rfl, rfl, ?_⟩
  decide

/-- Claim C3 (amended): for every title occurring in the grouped map, the
flat view contains exactly one entry bearing it, and the instance kept is
the *first occurrence* in iteration order (area insertion order, then
within-area order), regardless of dates. -/
theorem c3_flat_dedup_first (dateMs : String → Option Int)
    (evA : List (String × List Entry)) (t : String)
    (ht : t ∈ (collectAll evA).map (fun fe => titleKey fe.2)) :
    (flatSorted dateMs evA).countP (fun fe => titleKey fe.2 == t) = 1
    ∧ ∀ fe, (collectAll evA).find? (fun fe => titleKey fe.2 == t) = some fe →
        fe ∈ flatSorted dateMs evA := by
  constructor
  · rw [flatSorted, sortJS_countP, uniqueEvidence, dedupByTitle_countP]
    rcases List.mem_map.mp ht with ⟨fe, hfe, rfl⟩
    have hany : (collectAll evA).any (fun x => titleKey x.2 == titleKey fe.2) = true := by
      rw [List.any_eq_true]
      exact ⟨fe, hfe, by simp⟩
    simp [hany]
  · intro fe hfind
    have hmem : fe ∈ uniqueEvidence evA :=
      dedupByTitle_keeps_first t fe (collectAll evA) [] (by simp) hfind
    exact (sortJS_perm _ _).mem_iff.mpr hmem

/-- Witness for C3's amended theorem at a concrete two-area map with a
repeated title. -/
theorem c3_flat_dedup_first_witness :
    ("English", ({ title := some "T", date := some "2025-01-01" } : Entry))
      ∈ flatSorted isoDateMs
          [("English", [({ title := some "T", date := some "2025-01-01" } : Entry)]),
           ("HSIE", [({ title := some "T", date := some "2025-06-01" } : Entry)])] := by
  refine (c3_flat_dedup_first isoDateMs
    [("English", [{ title := some "T", date := some "2025-01-01" }]),
     ("HSIE", [{ title := some "T", date := some "2025-06-01" }])] "T" ?_).2 _ rfl
  rw [show collectAll
      [("English", [({ title := some "T", date := some "2025-01-01" } : Entry)]),
       ("HSIE", [({ title := some "T", date := some "2025-06-01" } : Entry)])]
    = [("English", { title := some "T", date := some "2025-01-01" }),
       ("HSIE", { title := some "T", date := some "2025-06-01" })] from rfl]
  exact List.mem_map.mpr
    ⟨("English", { title := some "T", date := some "2025-01-01" }),
     List.mem_cons_self _ _, rfl⟩

/-- Claim C7 counterexample: an entry whose date `"garbage"` cannot be
parsed is placed *first* in the flat view, ahead of an entry with a valid
date — the comparator returns NaN (coerced to `+0`), so unparseable dates
keep their position instead of sorting as earliest. -/
theorem c7_sort_cex :
    flatSorted isoDateMs [("A",
        [({ title := some "B", date := some "garbage" } : Entry),
         ({ title := some "G", date := some "2025-01-01" } : Entry)])]
      = [("A", { title := some "B", date := some "garbage" }),
         ("A", { title := some "G", date := some "2025-01-01" })]
    ∧ entryMs isoDateMs { title := some "B", date := some "garbage" } = none
    ∧ (entryMs isoDateMs { title := some "G", date := some "2025-01-01" }).isSome = true :=
  ⟨rfl, rfl, rfl⟩

/-- Claim C7 (amended): when every entry in the flat view has a parseable
date (a missing date parsing as the 1970 epoch), the view is ordered
most-recent-first; an entry whose date fails to parse instead compares
equal (comparator `+0`) to *every* entry, in both directions, and the
stable sort therefore leaves it in its relative position rather than
sorting it as earliest. -/
theorem c7_flat_sort_order (dateMs : String → Option Int)
    (evA : List (String × List Entry))
    (hall : ∀ fe ∈ uniqueEvidence evA, (entryMs dateMs fe.2).isSome = true) :
    (flatSorted dateMs evA).Pairwise (fun a b =>
        (entryMs dateMs a.2).getD 0 ≥ (entryMs dateMs b.2).getD 0)
    ∧ (∀ x y : String × Entry, entryMs dateMs x.2 = none →
        jsDateCompare dateMs x y = 0 ∧ jsDateCompare dateMs y x = 0) := by
  constructor
  · have key : ∀ a ∈ uniqueEvidence evA, ∀ b ∈ uniqueEvidence evA,
        (dateLe dateMs a b = true ↔
          (entryMs dateMs b.2).getD 0 ≤ (entryMs dateMs a.2).getD 0) := by
      intro a ha b hb
      rcases Option.isSome_iff_exists.mp (hall a ha) with ⟨ma, hma⟩
      rcases Option.isSome_iff_exists.mp (hall b hb) with ⟨mb, hmb⟩
      rw [dateLe, decide_eq_true_iff, jsDateCompare, hma, hmb]
      simp only [hma, hmb, Option.getD_some]
      omega
    have hP : (sortJS (dateLe dateMs) (uniqueEvidence evA)).Pairwise
        (fun a b => dateLe dateMs a b = true) := sortJS_pairwise
      (by
        intro a ha b hb
        rw [key a ha b hb, key b hb a ha]
        omega)
      (by
        intro a ha b hb c hc h1 h2
        rw [key a ha b hb] at h1
        rw [key b hb c hc] at h2
        rw [key a ha c hc]
        omega)
    refine hP.imp_of_mem ?_
    intro a b ha hb h
    exact (key a (mem_sortJS ha) b (mem_sortJS hb)).mp h
  · intro x y h
    constructor
    · simp [jsDateCompare, h]
    · cases hy : entryMs dateMs y.2 <;> simp [jsDateCompare, h, hy]

/-- Witness for C7's amended theorem at a concrete, fully-dated map. -/
theorem c7_flat_sort_order_witness :
    (flatSorted isoDateMs
        [("A", [({ title := some "G", date := some "2025-01-01" } : Entry),
                ({ title := some "H", date := some "2025-06-01" } : Entry)])]).Pairwise
      (fun a b => (entryMs isoDateMs a.2).getD 0 ≥ (entryMs isoDateMs b.2).getD 0) :=
  (c7_flat_sort_order isoDateMs
    [("A", [{ title := some "G", date := some "2025-01-01" },
            { title := some "H", date := some "2025-06-01" }])]
    (by decide)).1

/-!
### Content Sampler (src/generate-portfolio.js lines 1406–1452)
-/

/-- `engagementOrder[a.engagement] || 0` (line 1422–1424). -/
def engagementScore (e : Entry) : Int :=
  match e.engagement with
  | some "Very High" => 3
  | some "High" => 2
  | some "Medium" => 1
  | _ => 0

/-- Comparator `bScore - aScore` as a boolean relation (descending). -/
def engLe (a b : Entry) : Bool :=
  decide ((engagementScore b - engagementScore a : Int) ≤ 0)

/-- Generic association-list lookup (JS object property access). -/
def alookup {β : Type} (k : String) : List (String × β) → Option β
  | [] => none
  | (k', v) :: rest => if k' = k then some v else alookup k rest

/-- The over-budget branch of `selectDiverseEvidence`: per area, skip
empty lists, sort by engagement descending and keep the first 5
(`maxPerArea`). -/
def selCore (evA : List (String × List Entry)) : List (String × List Entry) :=
  evA.filterMap (fun p =>
    if p.2.length = 0 then none
    else some (p.1, (sortJS engLe p.2).take 5))

/-- `selectDiverseEvidence(evidenceByArea, maxTotal = 30)` (lines
1406–1432). -/
def selectDiverseEvidence (evA : List (String × List Entry))
    (maxTotal : Nat := 30) : List (String × List Entry) :=
  if (evA.flatMap Prod.snd).length ≤ maxTotal then evA
  else selCore evA

/-- `generateEvidenceStatistics` (lines 1434–1452): per area with
`total > shown`, record `{total, shown, additional = total - shown}`. -/
def generateEvidenceStatistics (evA selected : List (String × List Entry)) :
    List (String × Nat × Nat × Nat) :=
  evA.filterMap (fun p =>
    let shown := ((alookup p.1 selected).getD []).length
    let total := p.2.length
    if shown < total then some (p.1, total, shown, total - shown) else none)

/-- Sum of the recorded `additional` (elided) counts. -/
def statsElidedSum (stats : List (String × Nat × Nat × Nat)) : Nat :=
  (stats.map (fun s => s.2.2.2)).sum

/-- Per-area evidence counts. -/
def areaCounts (evA : List (String × List Entry)) : List Nat :=
  evA.map (fun p => p.2.length)

theorem collectAll_length (evA : List (String × List Entry)) :
    (collectAll evA).length = (areaCounts evA).sum := by
  induction evA with
  | nil => simp [collectAll, areaCounts]
  | cons hd rest ih =>
      simp [collectAll, areaCounts, List.flatMap_cons] at ih ⊢
      simpa [collectAll, areaCounts] using ih

theorem selCore_length (evA : List (String × List Entry)) :
    (collectAll (selCore evA)).length
      = ((areaCounts evA).map (fun n => min 5 n)).sum := by
  induction evA with
  | nil => simp [selCore, collectAll, areaCounts]
  | cons hd rest ih =>
      by_cases h : hd.2.length = 0
      · rw [show selCore (hd :: rest) = selCore rest from by
            simp [selCore, h]]
        rw [ih]
        simp [areaCounts, h]
      · rw [show selCore (hd :: rest)
            = (hd.1, (sortJS engLe hd.2).take 5) :: selCore rest from by
            simp [selCore, h]]
        have hlen : ((sortJS engLe hd.2).take 5).length = min 5 hd.2.length := by
          rw [List.length_take, (sortJS_perm engLe hd.2).length_eq]
        simp only [collectAll, List.flatMap_cons, List.length_append,
          List.length_map, areaCounts, List.map_cons, List.sum_cons] at ih ⊢
        rw [hlen]
        omega

theorem alookup_eq_none {β : Type} (k : String) (l : List (String × β))
    (h : k ∉ l.map Prod.fst) : alookup k l = none := by
  induction l with
  | nil => rfl
  | cons hd rest ih =>
      have hk : hd.1 ≠ k := by
        intro heq
        exact h (by simp [heq])
      simp only [alookup]
      rw [if_neg hk]
      exact ih (fun hm => h (by simp [hm]))

theorem selCore_keys_subset (evA : List (String × List Entry)) (k : String)
    (h : k ∈ (selCore evA).map Prod.fst) : k ∈ evA.map Prod.fst := by
  induction evA with
  | nil => simp [selCore] at h
  | cons hd rest ih =>
      by_cases hz : hd.2.length = 0
      · rw [show selCore (hd :: rest) = selCore rest from by simp [selCore, hz]] at h
        exact List.mem_cons_of_mem _ (ih h)
      · rw [show selCore (hd :: rest)
            = (hd.1, (sortJS engLe hd.2).take 5) :: selCore rest from by
            simp [selCore, hz]] at h
        rcases List.mem_cons.mp h with h | h
        · simp [h]
        · exact List.mem_cons_of_mem _ (ih h)

theorem alookup_selCore (evA : List (String × List Entry))
    (hkeys : (evA.map Prod.fst).Nodup) :
    ∀ a l, (a, l) ∈ evA →
      ((alookup a (selCore evA)).getD []).length = min 5 l.length := by
  induction evA with
  | nil => intro a l h; simp at h
  | cons hd rest ih =>
      intro a l hmem
      rcases List.pairwise_cons.mp hkeys with ⟨hhd, hrest⟩
      rcases List.mem_cons.mp hmem with rfl | hmem
      · by_cases hz : l.length = 0
        · rw [show selCore ((a, l) :: rest) = selCore rest from by simp [selCore, hz]]
          have : a ∉ (selCore rest).map Prod.fst := by
            intro h
            exact hhd a (selCore_keys_subset rest a h) rfl
          rw [alookup_eq_none a _ this]
          simp [hz]
        · rw [show selCore ((a, l) :: rest)
              = (a, (sortJS engLe l).take 5) :: selCore rest from by
              simp [selCore, hz]]
          simp [alookup, List.length_take, (sortJS_perm engLe l).length_eq]
      · have hne : hd.1 ≠ a := hhd a (List.mem_map_of_mem Prod.fst hmem)
        by_cases hz : hd.2.length = 0
        · rw [show selCore (hd :: rest) = selCore rest from by simp [selCore, hz]]
          exact ih hrest a l hmem
        · rw [show selCore (hd :: rest)
              = (hd.1, (sortJS engLe hd.2).take 5) :: selCore rest from by
              simp [selCore, hz]]
          simp only [alookup, if_neg hne]
          exact ih hrest a l hmem

end OneHome

namespace OneHome

theorem genStats_elided_sum (evA sel : List (String × List Entry))
    (hlk : ∀ p ∈ evA, ((alookup p.1 sel).getD []).length = min 5 p.2.length) :
    statsElidedSum (generateEvidenceStatistics evA sel)
      = ((areaCounts evA).map (fun n => n - min 5 n)).sum := by
  induction evA with
  | nil => simp [generateEvidenceStatistics, statsElidedSum, areaCounts]
  | cons hd rest ih =>
      have hhd := hlk hd (List.mem_cons_self _ _)
      have hr := ih (fun p hp => hlk p (List.mem_cons_of_mem _ hp))
      simp only [generateEvidenceStatistics, List.filterMap_cons] at hr ⊢
      rw [hhd]
      by_cases hlt : min 5 hd.2.length < hd.2.length
      · rw [if_pos hlt]
        simp only [statsElidedSum, List.map_cons, List.sum_cons, areaCounts] at hr ⊢
        rw [hr]
      · rw [if_neg hlt]
        have : hd.2.length - min 5 hd.2.length = 0 := by omega
        simp only [statsElidedSum, areaCounts, List.map_cons, List.sum_cons] at hr ⊢
        rw [hr, this]
        omega

theorem map_min_sum_le (ns : List Nat) :
    ((ns.map (fun n => min 5 n)).sum ≤ ns.sum) := by
  induction ns with
  | nil => simp
  | cons a rest ih =>
      simp only [List.map_cons, List.sum_cons]
      have : min 5 a ≤ a := Nat.min_le_right 5 a
      omega

theorem map_sub_min_sum (ns : List Nat) :
    ((ns.map (fun n => n - min 5 n)).sum)
      = ns.sum - (ns.map (fun n => min 5 n)).sum := by
  induction ns with
  | nil => simp
  | cons a rest ih =>
      simp only [List.map_cons, List.sum_cons]
      have h1 : min 5 a ≤ a := Nat.min_le_right 5 a
      have h2 := map_min_sum_le rest
      omega

theorem sum_le_five_mul (ns : List Nat) (h : ∀ x ∈ ns, x ≤ 5) :
    ns.sum ≤ 5 * ns.length := by
  induction ns with
  | nil => simp
  | cons a rest ih =>
      simp only [List.sum_cons, List.length_cons]
      have ha := h a (List.mem_cons_self _ _)
      have hr := ih (fun x hx => h x (List.mem_cons_of_mem _ hx))
      omega

/-- Claim C4 counterexample: 40 evidence entries across 3 areas (20, 10
and 10), global cap 30 and per-area cap 5 — the recorded elided counts
sum to 25 (= 40 − 3·5), not 10: with only 3 areas at 5 entries each at
most 15 entries can be shown, so a sum of 10 is impossible. -/
theorem c4_elided_cex :
    (collectAll [("A", List.replicate 20 ({} : Entry)),
                 ("B", List.replicate 10 ({} : Entry)),
                 ("C", List.replicate 10 ({} : Entry))]).length = 40
    ∧ [("A", List.replicate 20 ({} : Entry)),
       ("B", List.replicate 10 ({} : Entry)),
       ("C", List.replicate 10 ({} : Entry))].length = 3
    ∧ statsElidedSum (generateEvidenceStatistics
        [("A", List.replicate 20 ({} : Entry)),
         ("B", List.replicate 10 ({} : Entry)),
         ("C", List.replicate 10 ({} : Entry))]
        (selectDiverseEvidence
          [("A", List.replicate 20 ({} : Entry)),
           ("B", List.replicate 10 ({} : Entry)),
           ("C", List.replicate 10 ({} : Entry))] 30)) = 25
    ∧ (25 : Nat) ≠ 10 := by
  refine ⟨rfl, rfl, ?_, by decide⟩
  rfl

/-- Claim C4 (amended): for 40 entries across 3 distinct areas with
global cap 30 and per-area cap 5, sampling outputs at most 5 entries per
area and at most 30 (indeed at most 15) in total, and the recorded
elided counts sum to 40 minus the number shown — which is at least 25,
never 10. -/
theorem c4_sampling_caps (evA : List (String × List Entry))
    (hkeys : (evA.map Prod.fst).Nodup)
    (hareas : evA.length = 3)
    (htotal : (collectAll evA).length = 40) :
    (∀ p ∈ selectDiverseEvidence evA 30, p.2.length ≤ 5)
    ∧ (collectAll (selectDiverseEvidence evA 30)).length ≤ 30
    ∧ statsElidedSum (generateEvidenceStatistics evA (selectDiverseEvidence evA 30))
        = 40 - (collectAll (selectDiverseEvidence evA 30)).length
    ∧ 25 ≤ statsElidedSum
        (generateEvidenceStatistics evA (selectDiverseEvidence evA 30)) := by
  have hflat : (evA.flatMap Prod.snd).length = 40 := by
    have h2 : ∀ l : List (String × List Entry),
        (collectAll l).length = (l.flatMap Prod.snd).length := by
      intro l
      induction l with
      | nil => rfl
      | cons hd rest ih =>
          simp only [collectAll, List.flatMap_cons, List.length_append,
            List.length_map] at ih ⊢
          omega
    have := h2 evA
    omega
  have hsel : selectDiverseEvidence evA 30 = selCore evA := by
    rw [selectDiverseEvidence, if_neg (by omega)]
  have hshown : (collectAll (selectDiverseEvidence evA 30)).length
      = ((areaCounts evA).map (fun n => min 5 n)).sum := by
    rw [hsel, selCore_length]
  have hcap : ((areaCounts evA).map (fun n => min 5 n)).sum ≤ 15 := by
    have h5 : ∀ x ∈ (areaCounts evA).map (fun n => min 5 n), x ≤ 5 := by
      intro x hx
      rcases List.mem_map.mp hx with ⟨n, _, rfl⟩
      exact Nat.min_le_left 5 n
    have := sum_le_five_mul _ h5
    have hlen : ((areaCounts evA).map (fun n => min 5 n)).length = 3 := by
      simp [areaCounts, hareas]
    omega
  have hsum : statsElidedSum (generateEvidenceStatistics evA (selectDiverseEvidence evA 30))
      = ((areaCounts evA).map (fun n => n - min 5 n)).sum := by
    rw [hsel]
    exact genStats_elided_sum evA (selCore evA) (fun p hp =>
      alookup_selCore evA hkeys p.1 p.2 (by simpa using hp))
  have hAC : (areaCounts evA).sum = 40 := by
    rw [← collectAll_length]; exact htotal
  refine ⟨?_, ?_, ?_, ?_⟩
  · intro p hp
    rw [hsel] at hp
    rcases List.mem_filterMap.mp hp with ⟨q, _, hq⟩
    by_cases hz : q.2.length = 0
    · rw [if_pos hz] at hq; cases hq
    · rw [if_neg hz] at hq
      obtain rfl : (q.1, (sortJS engLe q.2).take 5) = p := Option.some.inj hq
      simp [List.length_take]
  · rw [hshown]; omega
  · rw [hsum, hshown, map_sub_min_sum, hAC]
  · rw [hsum, map_sub_min_sum, hAC]
    omega

/-- Witness for C4's amended theorem at the concrete 20/10/10 split. -/
theorem c4_sampling_caps_witness :
    25 ≤ statsElidedSum (generateEvidenceStatistics
        [("A", List.replicate 20 ({} : Entry)),
         ("B", List.replicate 10 ({} : Entry)),
         ("C", List.replicate 10 ({} : Entry))]
        (selectDiverseEvidence
          [("A", List.replicate 20 ({} : Entry)),
           ("B", List.replicate 10 ({} : Entry)),
           ("C", List.replicate 10 ({} : Entry))] 30)) :=
  (c4_sampling_caps
    [("A", List.replicate 20 ({} : Entry)),
     ("B", List.replicate 10 ({} : Entry)),
     ("C", List.replicate 10 ({} : Entry))]
    (by decide) rfl rfl).2.2.2

end OneHome

namespace OneHome

/-!
### Resource Extractor (src/generate-portfolio.js lines 1153–1226)
-/

/-- The curated keyword → canonical-name table (lines 1158–1192), in
source order. -/
def knownResources : List (String × String) :=
  [("minecraft", "Minecraft (digital game)"),
   ("roblox", "Roblox (digital game)"),
   ("lego", "LEGO (construction toys)"),
   ("youtube", "YouTube (video platform)"),
   ("flight simulator", "Flight Simulator (app)"),
   ("flightradar", "Flight tracking app"),
   ("pool", "Local swimming pool"),
   ("swimming pool", "Local swimming pool"),
   ("geode", "Geodes (geological specimens)"),
   ("geodes", "Geodes (geological specimens)"),
   ("psychologist", "Child psychologist sessions"),
   ("the lorax", "The Lorax (film/book)"),
   ("watercolour", "Watercolour paints"),
   ("watercolor", "Watercolour paints"),
   ("acrylic paint", "Acrylic paints"),
   ("texta", "Textas/markers"),
   ("textas", "Textas/markers"),
   ("marker", "Textas/markers"),
   ("pencil", "Pencils"),
   ("pencils", "Pencils"),
   ("crayon", "Crayons"),
   ("crayons", "Crayons"),
   ("hot glue", "Hot glue gun"),
   ("bead", "Beads"),
   ("beads", "Beads"),
   ("paint", "Paints"),
   ("book", "Books"),
   ("library", "Library"),
   ("ipad", "iPad/tablet"),
   ("tablet", "iPad/tablet"),
   ("computer", "Computer")]

/-- Substring occurrence, `haystack.includes(needle)`. -/
def containsSub (pat : List Char) : List Char → Bool
  | [] => pat.isPrefixOf ([] : List Char)
  | c :: t => pat.isPrefixOf (c :: t) || containsSub pat t

def strIncludes (hay pat : String) : Bool := containsSub pat.data hay.data

/-- `lowerStr sCase()`; character-list implementation (kernel-reducible,
unlike `lowerStr`). -/
def lowerStr (s : String) : String := ⟨s.data.map Char.toLower⟩

/-- `(description || '').toLowerCase() + ' ' + (title || '').toLowerCase()`
(lines 1212–1214). -/
def combinedOf (e : Entry) : String :=
  lowerStr (e.description.getD "") ++ " " ++ lowerStr (e.title.getD "")

/-- Canonical names triggered by one entry, in table order (lines
1217–1221). -/
def entryTriggers (e : Entry) : List String :=
  knownResources.filterMap (fun pc =>
    if strIncludes (combinedOf e) (lowerStr pc.1) then some pc.2 else none)

/-- All triggered names, traversing `Object.values(evidenceByArea)` in
insertion order (lines 1208–1223); duplicates still present. -/
def triggersOf (evA : List (String × List Entry)) : List String :=
  (evA.map Prod.snd).flatMap (fun l => l.flatMap entryTriggers)

/-- Lexicographic code-unit comparison, as JS's default sort comparator
orders strings (kernel-reducible, unlike `String.decidableLT`). -/
def charListLt : List Char → List Char → Bool
  | [], [] => false
  | [], _ :: _ => true
  | _ :: _, [] => false
  | a :: as, b :: bs =>
      if a < b then true
      else if b < a then false
      else charListLt as bs

/-- `a ≤ b` in the default-sort order. -/
def strLeJS (a b : String) : Bool := !(charListLt b.data a.data)

/-- The `addedLowerCase` dedup (lines 1199–1205): keep the first
occurrence of each case-insensitive name. -/
def dedupCI (seen : List String) : List String → List String
  | [] => []
  | s :: rest =>
      if lowerStr s ∈ seen then dedupCI seen rest
      else s :: dedupCI (lowerStr s :: seen) rest

/-- `extractResourcesFromEvidence` (lines 1153–1226):
`Array.from(resources).sort()`. -/
def extractResourcesFromEvidence (evA : List (String × List Entry)) : List String :=
  sortJS strLeJS (dedupCI [] (triggersOf evA))

/-- Whether some evidence entry's combined text mentions `pat`. -/
def mentionsPat (evA : List (String × List Entry)) (pat : String) : Bool :=
  (collectAll evA).any (fun fe => strIncludes (combinedOf fe.2) (lowerStr pat))

theorem dedupCI_nodup :
    ∀ (l : List String) (seen : List String),
      ((dedupCI seen l).map lowerStr).Nodup
      ∧ ∀ x ∈ dedupCI seen l, lowerStr x ∉ seen := by
  intro l
  induction l with
  | nil => intro seen; simp [dedupCI]
  | cons s rest ih =>
      intro seen
      by_cases h : lowerStr s ∈ seen
      · rw [show dedupCI seen (s :: rest) = dedupCI seen rest from by simp [dedupCI, h]]
        exact ih seen
      · rw [show dedupCI seen (s :: rest)
            = s :: dedupCI (lowerStr s :: seen) rest from by simp [dedupCI, h]]
        obtain ⟨hnd, hnotin⟩ := ih (lowerStr s :: seen)
        refine ⟨?_, ?_⟩
        · rw [List.map_cons]
          refine List.Pairwise.cons ?_ hnd
          intro y hy
          rcases List.mem_map.mp hy with ⟨x, hx, rfl⟩
          intro heq
          exact hnotin x hx (heq ▸ List.mem_cons_self _ _)
        · intro x hx
          rcases List.mem_cons.mp hx with rfl | hx
          · exact h
          · intro hmem
            exact hnotin x hx (List.mem_cons_of_mem _ hmem)

theorem dedupCI_mem_iff :
    ∀ (l : List String) (seen : List String) (t : String), t ∉ seen →
      ((∃ c' ∈ dedupCI seen l, lowerStr c' = t) ↔ ∃ c' ∈ l, lowerStr c' = t) := by
  intro l
  induction l with
  | nil => intro seen t _; simp [dedupCI]
  | cons s rest ih =>
      intro seen t ht
      by_cases h : lowerStr s ∈ seen
      · rw [show dedupCI seen (s :: rest) = dedupCI seen rest from by simp [dedupCI, h]]
        constructor
        · intro hx
          rcases (ih seen t ht).mp hx with ⟨c', hc', heq⟩
          exact ⟨c', List.mem_cons_of_mem _ hc', heq⟩
        · rintro ⟨c', hc', rfl⟩
          rcases List.mem_cons.mp hc' with rfl | hc'
          · exact absurd h ht
          · exact (ih seen _ ht).mpr ⟨c', hc', rfl⟩
      · rw [show dedupCI seen (s :: rest)
            = s :: dedupCI (lowerStr s :: seen) rest from by simp [dedupCI, h]]
        by_cases hts : t = lowerStr s
        · subst hts
          exact ⟨fun _ => ⟨s, List.mem_cons_self _ _, rfl⟩,
                 fun _ => ⟨s, List.mem_cons_self _ _, rfl⟩⟩
        · have ht2 : t ∉ lowerStr s :: seen := by
            intro hm
            rcases List.mem_cons.mp hm with hm | hm
            · exact hts hm
            · exact ht hm
          constructor
          · rintro ⟨c', hc', rfl⟩
            rcases List.mem_cons.mp hc' with rfl | hc'
            · exact absurd rfl hts
            · rcases (ih (lowerStr s :: seen) _ ht2).mp ⟨c', hc', rfl⟩ with ⟨c'', hc'', heq⟩
              exact ⟨c'', List.mem_cons_of_mem _ hc'', heq⟩
          · rintro ⟨c', hc', rfl⟩
            rcases List.mem_cons.mp hc' with rfl | hc'
            · exact absurd rfl hts
            · rcases (ih (lowerStr s :: seen) _ ht2).mpr ⟨c', hc', rfl⟩ with ⟨c'', hc'', heq⟩
              exact ⟨c'', List.mem_cons_of_mem _ hc'', heq⟩

end OneHome

namespace OneHome

theorem mem_triggersOf (evA : List (String × List Entry)) (x : String) :
    x ∈ triggersOf evA ↔
      ∃ pc ∈ knownResources, pc.2 = x ∧ mentionsPat evA pc.1 = true := by
  simp only [triggersOf, mentionsPat, collectAll, List.mem_flatMap, List.mem_map,
    List.mem_filterMap, List.any_eq_true, entryTriggers,
    Option.ite_none_right_eq_some, Option.some.injEq]
  constructor
  · rintro ⟨l, ⟨p, hp, rfl⟩, e, he, pc, hpc, hinc, rfl⟩
    exact ⟨pc, hpc, rfl, (p.1, e), ⟨p, hp, e, he, rfl⟩, hinc⟩
  · rintro ⟨pc, hpc, rfl, fe, ⟨p, hp, e, he, rfl⟩, hinc⟩
    exact ⟨p.2, ⟨p, hp, rfl⟩, e, he, pc, hpc, hinc, rfl⟩

theorem charListLt_irrefl : ∀ l : List Char, charListLt l l = false := by
  intro l
  induction l with
  | nil => rfl
  | cons a as ih => simp [charListLt, lt_irrefl, ih]

theorem charListLt_trans :
    ∀ a b c : List Char, charListLt a b = true → charListLt b c = true →
      charListLt a c = true := by
  intro a
  induction a with
  | nil =>
      intro b c hab hbc
      cases b with
      | nil => simp [charListLt] at hab
      | cons y ys =>
          cases c with
          | nil => simp [charListLt] at hbc
          | cons z zs => simp [charListLt]
  | cons x xs ih =>
      intro b c hab hbc
      cases b with
      | nil => simp [charListLt] at hab
      | cons y ys =>
          cases c with
          | nil => simp [charListLt] at hbc
          | cons z zs =>
              simp only [charListLt] at hab hbc ⊢
              by_cases hxy : x < y
              · simp only [if_pos hxy] at hab
                by_cases hyz : y < z
                · simp [if_pos (lt_trans hxy hyz)]
                · by_cases hzy : z < y
                  · rw [if_neg hyz, if_pos hzy] at hbc
                    cases hbc
                  · have : y = z := le_antisymm (not_lt.mp hzy) (not_lt.mp hyz)
                    simp [if_pos (this ▸ hxy)]
              · by_cases hyx : y < x
                · rw [if_neg hxy, if_pos hyx] at hab
                  cases hab
                · have hxyeq : x = y := le_antisymm (not_lt.mp hyx) (not_lt.mp hxy)
                  simp only [if_neg hxy, if_neg hyx] at hab
                  by_cases hyz : y < z
                  · simp [hxyeq, if_pos hyz]
                  · by_cases hzy : z < y
                    · rw [if_neg hyz, if_pos hzy] at hbc
                      cases hbc
                    · have hyzeq : y = z := le_antisymm (not_lt.mp hzy) (not_lt.mp hyz)
                      simp only [if_neg hyz, if_neg hzy] at hbc
                      have hxz : ¬ x < z := by rw [hxyeq, hyzeq]; exact lt_irrefl z
                      have hzx : ¬ z < x := by rw [hxyeq, hyzeq]; exact lt_irrefl z
                      simp only [if_neg hxz, if_neg hzx]
                      exact ih ys zs hab hbc

theorem charListLt_eq_of_not :
    ∀ a b : List Char, charListLt a b = false → charListLt b a = false → a = b := by
  intro a
  induction a with
  | nil =>
      intro b hab _
      cases b with
      | nil => rfl
      | cons y ys => simp [charListLt] at hab
  | cons x xs ih =>
      intro b hab hba
      cases b with
      | nil => simp [charListLt] at hba
      | cons y ys =>
          simp only [charListLt] at hab hba
          by_cases hxy : x < y
          · rw [if_pos hxy] at hab
            cases hab
          · by_cases hyx : y < x
            · rw [if_pos hyx] at hba
              cases hba
            · have hxyeq : x = y := le_antisymm (not_lt.mp hyx) (not_lt.mp hxy)
              simp only [if_neg hxy, if_neg hyx] at hab
              simp only [if_neg hyx, if_neg hxy] at hba
              rw [hxyeq, ih ys hab hba]

theorem strLeJS_total (a b : String) : strLeJS a b = true ∨ strLeJS b a = true := by
  by_cases h : charListLt b.data a.data = true
  · right
    rw [strLeJS]
    by_cases h2 : charListLt a.data b.data = true
    · have := charListLt_trans _ _ _ h h2
      rw [charListLt_irrefl] at this
      cases this
    · simp [Bool.eq_false_iff.mpr h2]
  · left
    rw [strLeJS]
    simp [Bool.eq_false_iff.mpr h]

theorem strLeJS_trans (a b c : String) (h1 : strLeJS a b = true)
    (h2 : strLeJS b c = true) : strLeJS a c = true := by
  rw [strLeJS] at h1 h2 ⊢
  rw [Bool.not_eq_true'] at h1 h2 ⊢
  by_cases hca : charListLt c.data a.data = true
  · by_cases hab : charListLt a.data b.data = true
    · have := charListLt_trans _ _ _ hca hab
      rw [h2] at this
      cases this
    · have heq : a.data = b.data :=
        charListLt_eq_of_not _ _ (Bool.eq_false_iff.mpr hab) h1
      rw [← heq] at h2
      rw [h2] at hca
      cases hca
  · exact Bool.eq_false_iff.mpr hca

/-- Claim C8: for every grouped evidence map, the extracted resource list
is sorted (JS default string order), case-insensitively duplicate-free,
and contains (up to case) a canonical name exactly when some entry's
combined title+description text mentions a keyword mapped to that name —
so repeated mentions in different casings (e.g. "Minecraft"/"minecraft"
plus "LEGO") yield exactly one canonical entry per resource, as on the
concrete example. -/
theorem c8_resource_extraction (evA : List (String × List Entry)) :
    (extractResourcesFromEvidence evA).Pairwise (fun a b => strLeJS a b = true)
    ∧ ((extractResourcesFromEvidence evA).map lowerStr).Nodup
    ∧ (∀ c : String,
        (∃ c' ∈ extractResourcesFromEvidence evA, lowerStr c' = lowerStr c)
        ↔ ∃ pc ∈ knownResources, lowerStr pc.2 = lowerStr c ∧ mentionsPat evA pc.1 = true)
    ∧ extractResourcesFromEvidence
        [("English",
          [{ description := some "We used Minecraft and LEGO today" },
           { description := some "minecraft again" }])]
      = ["LEGO (construction toys)", "Minecraft (digital game)"] := by
  refine ⟨?_, ?_, ?_, by decide⟩
  · exact sortJS_pairwise
      (fun a _ b _ => strLeJS_total a b)
      (fun a _ b _ c _ h1 h2 => strLeJS_trans a b c h1 h2)
  · have hnd := (dedupCI_nodup (triggersOf evA) []).1
    have hperm : List.Perm
        ((extractResourcesFromEvidence evA).map lowerStr)
        ((dedupCI [] (triggersOf evA)).map lowerStr) :=
      (sortJS_perm _ _).map _
    exact hperm.nodup_iff.mpr hnd
  · intro c
    have hperm := sortJS_perm strLeJS (dedupCI [] (triggersOf evA))
    have h1 : (∃ c' ∈ extractResourcesFromEvidence evA, lowerStr c' = lowerStr c)
        ↔ ∃ c' ∈ dedupCI [] (triggersOf evA), lowerStr c' = lowerStr c := by
      constructor
      · rintro ⟨c', hc', heq⟩
        exact ⟨c', hperm.mem_iff.mp hc', heq⟩
      · rintro ⟨c', hc', heq⟩
        exact ⟨c', hperm.mem_iff.mpr hc', heq⟩
    rw [h1, dedupCI_mem_iff (triggersOf evA) [] (lowerStr c) (by simp)]
    constructor
    · rintro ⟨c', hc', heq⟩
      rcases (mem_triggersOf evA c').mp hc' with ⟨pc, hpc, rfl, hm⟩
      exact ⟨pc, hpc, heq, hm⟩
    · rintro ⟨pc, hpc, heq, hm⟩
      exact ⟨pc.2, (mem_triggersOf evA pc.2).mpr ⟨pc, hpc, rfl, hm⟩, heq⟩

end OneHome

namespace OneHome

/-!
### Area Classifier and Learning Areas Overview
(src/generate-portfolio.js lines 568–713 and 1115–1148)
-/

/-- The synonym table of `normalizeAreaName` (lines 1123–1144). -/
def areaMappings : List (String × String) :=
  [("english", "English"),
   ("mathematics", "Mathematics"),
   ("maths", "Mathematics"),
   ("math", "Mathematics"),
   ("science & technology", "Science & Technology"),
   ("science and technology", "Science & Technology"),
   ("science", "Science & Technology"),
   ("hsie", "HSIE"),
   ("hsie (history, geography etc)", "HSIE"),
   ("history", "HSIE"),
   ("geography", "HSIE"),
   ("pdhpe", "PDHPE"),
   ("pdhpe (health, physical education)", "PDHPE"),
   ("health", "PDHPE"),
   ("pe", "PDHPE"),
   ("creative arts", "Creative Arts"),
   ("art", "Creative Arts"),
   ("music", "Creative Arts"),
   ("drama", "Creative Arts"),
   ("dance", "Creative Arts")]

/-- `normalizeAreaName(area)` (lines 1118–1148): falsy → `"Other"`,
else case-insensitive synonym lookup of the trimmed label, unrecognized
labels passing through trimmed. -/
def normalizeAreaName (a : Option String) : String :=
  match a with
  | none => "Other"
  | some s =>
      if s = "" then "Other"
      else
        let t := jsTrim s
        (alookup (lowerStr t) areaMappings).getD t

/-- A curriculum outcome's used fields; the mixed-case key aliases
(`'Learning Area'`/`learningArea`, …) are collapsed into one typed
field each. -/
structure Outcome where
  learningArea : Option String := none
  outcomeDescription : Option String := none
  outcomeTitle : Option String := none

/-- A per-area overview object; only `stageStatement` is read here. -/
structure OverviewV where
  stageStatement : Option String := none

/-- The fixed list of standard NSW learning areas (lines 577–584). -/
def standardAreas : List String :=
  ["English", "Mathematics", "Science & Technology", "HSIE", "PDHPE", "Creative Arts"]

/-- `/^\d+$/.test(area)`. -/
def isAllDigits (s : String) : Bool :=
  decide (s.data ≠ []) && s.data.all isDigitCh

/-- Insertion-ordered `Set` construction: keep first occurrences. -/
def dedupFirstAux (seen : List String) : List String → List String
  | [] => []
  | x :: rest =>
      if x ∈ seen then dedupFirstAux seen rest
      else x :: dedupFirstAux (x :: seen) rest

def dedupFirst (l : List String) : List String := dedupFirstAux [] l

/-- `evidenceByArea[area]` coerced to an array (lines 602–604). -/
def evidenceArrOf (evA : List (String × List Entry)) (area : String) : List Entry :=
  (alookup area evA).getD []

/-- The two skip rules of lines 596–610: numeric/empty labels, and
non-standard areas without overview or evidence. -/
def skipArea (ov : List (String × OverviewV)) (evA : List (String × List Entry))
    (area : String) : Bool :=
  if area = "" then true
  else if area = "0" || area = "1" || isAllDigits area then true
  else
    !(decide (area ∈ standardAreas)) && (alookup area ov).isNone
      && decide ((evidenceArrOf evA area).length = 0)

/-- The explicit no-evidence fallback sentence (line 703). -/
def fallbackProgressText (area : String) : String :=
  "No formal evidence was documented for " ++ area
    ++ " during this reporting period. Learning in this area has occurred informally through daily activities, conversations, and integrated experiences."

/-- The stage-statement paragraph (lines 632–672): explicit overview
statement, else up to 6 outcome descriptions, else generic sentence. -/
def stageStatementPars (ov : List (String × OverviewV)) (outcomes : List Outcome)
    (yearLevel area : String) : List DocElem :=
  let o := (alookup area ov).getD {}
  if strTruthy o.stageStatement then
    [DocElem.par [trI (o.stageStatement.getD "")]]
  else
    let areaOutcomes := outcomes.filter (fun oc => normalizeAreaName oc.learningArea = area)
    if areaOutcomes.length > 0 then
      let descs := String.intercalate "; "
        (((areaOutcomes.take 6).map (fun oc => jsTrim (strD oc.outcomeDescription ""))).filter
          (fun d => d.length > 0))
      [DocElem.par [trI ("In " ++ area ++ ", " ++ yearLevel
        ++ " students work towards outcomes including: " ++ descs ++ ".")]]
    else
      [DocElem.par [trI (yearLevel ++ " students develop skills and knowledge in "
        ++ area ++ " through engaging activities and experiences.")]]

/-- The progress-summary paragraphs (lines 674–708): AI overlay first,
then evidence count, then the explicit fallback sentence. -/
def progressPars (evA : List (String × List Entry)) (ai : List (String × String))
    (area : String) : List DocElem :=
  DocElem.par [trB "Progress Summary:"] ::
    (if strTruthy (alookup area ai) then
      [DocElem.par [tr ((alookup area ai).getD "")]]
    else if (evidenceArrOf evA area).length > 0 then
      [DocElem.par [tr (toString (evidenceArrOf evA area).length
        ++ " learning evidence "
        ++ (if (evidenceArrOf evA area).length = 1 then "entry" else "entries")
        ++ " documented for this area during the reporting period.")]]
    else
      [DocElem.par [trI (fallbackProgressText area)]])

/-- One processed area's section nodes (lines 621–708). -/
def areaSection (ov : List (String × OverviewV)) (evA : List (String × List Entry))
    (outcomes : List Outcome) (yearLevel term : String) (ai : List (String × String))
    (n : Nat) (area : String) : List DocElem :=
  DocElem.heading 2 [tr ("2." ++ Nat.repr n ++ " " ++ area)]
    :: DocElem.par [trB (term ++ " Expectations:")]
    :: (stageStatementPars ov outcomes yearLevel area ++ progressPars evA ai area)

/-- The `allAreas.forEach` loop with its `sectionNum` counter. -/
def overviewFold (ov : List (String × OverviewV)) (evA : List (String × List Entry))
    (outcomes : List Outcome) (yearLevel term : String) (ai : List (String × String)) :
    List String → Nat → List DocElem
  | [], _ => []
  | a :: rest, n =>
      if skipArea ov evA a then overviewFold ov evA outcomes yearLevel term ai rest n
      else areaSection ov evA outcomes yearLevel term ai n a
        ++ overviewFold ov evA outcomes yearLevel term ai rest (n + 1)

/-- `generateLearningAreaOverviews` (lines 568–713): iterate the
insertion-ordered set of standard areas plus overview and evidence keys. -/
def generateLearningAreaOverviews (ov : List (String × OverviewV))
    (evA : List (String × List Entry)) (outcomes : List Outcome)
    (yearLevel term : String) (ai : List (String × String)) : List DocElem :=
  overviewFold ov evA outcomes yearLevel term ai
    (dedupFirst (standardAreas ++ ov.map Prod.fst ++ evA.map Prod.fst)) 1

/-- The learning-area named in a section heading (text `2.{n} {area}`). -/
def afterFirstSpace (s : String) : String :=
  ⟨(s.data.dropWhile (fun c => c != ' ')).drop 1⟩

/-- Recognizer for the heading of `area`'s overview section. -/
def isAreaHeading (area : String) : DocElem → Bool
  | DocElem.heading 2 [r] => afterFirstSpace r.text == area
  | _ => false

def countAreaHeadings (area : String) (l : List DocElem) : Nat :=
  l.countP (isAreaHeading area)

end OneHome

namespace OneHome

theorem digitChar_ne_space (n : Nat) (h : n < 10) : Nat.digitChar n ≠ ' ' := by
  interval_cases n <;> decide

theorem toDigitsCore_ne_space :
    ∀ (fuel n : Nat) (acc : List Char), (∀ c ∈ acc, c ≠ ' ') →
      ∀ c ∈ Nat.toDigitsCore 10 fuel n acc, c ≠ ' ' := by
  intro fuel
  induction fuel with
  | zero =>
      intro n acc hacc c hc
      exact hacc c hc
  | succ m ih =>
      intro n acc hacc c hc
      unfold Nat.toDigitsCore at hc
      by_cases h : n / 10 = 0
      · rw [if_pos h] at hc
        rcases List.mem_cons.mp hc with rfl | hc
        · exact digitChar_ne_space _ (Nat.mod_lt n (by omega))
        · exact hacc c hc
      · rw [if_neg h] at hc
        refine ih (n / 10) (Nat.digitChar (n % 10) :: acc) ?_ c hc
        intro d hd
        rcases List.mem_cons.mp hd with rfl | hd
        · exact digitChar_ne_space _ (Nat.mod_lt n (by omega))
        · exact hacc d hd

theorem repr_ne_space (n : Nat) : ∀ c ∈ (Nat.repr n).data, c ≠ ' ' := by
  intro c hc
  have hd : (Nat.repr n).data = Nat.toDigits 10 n := rfl
  rw [hd, Nat.toDigits] at hc
  exact toDigitsCore_ne_space (n + 1) n [] (by simp) c hc

theorem dropWhile_past_prefix (r : List Char) :
    ∀ l : List Char, (∀ c ∈ l, c ≠ ' ') →
      (l ++ ' ' :: r).dropWhile (fun c => c != ' ') = ' ' :: r := by
  intro l
  induction l with
  | nil => intro _; simp [List.dropWhile]
  | cons x xs ih =>
      intro h
      have hx : x ≠ ' ' := h x (by simp)
      have : (x != ' ') = true := by simpa using hx
      simp only [List.cons_append, List.dropWhile_cons, this, if_true]
      exact ih (fun c hc => h c (by simp [hc]))

theorem afterFirstSpace_heading (n : Nat) (area : String) :
    afterFirstSpace ("2." ++ Nat.repr n ++ " " ++ area) = area := by
  rw [afterFirstSpace]
  have hdata : ("2." ++ Nat.repr n ++ " " ++ area).data
      = ('2' :: '.' :: (Nat.repr n).data) ++ ' ' :: area.data := by
    simp [String.data_append]
  rw [hdata, dropWhile_past_prefix area.data _ ?_]
  · rfl
  · intro c hc
    rcases List.mem_cons.mp hc with rfl | hc
    · decide
    · rcases List.mem_cons.mp hc with rfl | hc
      · decide
      · exact repr_ne_space n c hc

theorem isAreaHeading_of_heading (A area : String) (n : Nat) :
    isAreaHeading A (DocElem.heading 2 [tr ("2." ++ Nat.repr n ++ " " ++ area)])
      = (area == A) := by
  simp only [isAreaHeading, tr]
  rw [afterFirstSpace_heading]

theorem stageStatementPars_no_heading (A : String) (ov : List (String × OverviewV))
    (outcomes : List Outcome) (yearLevel area : String) :
    (stageStatementPars ov outcomes yearLevel area).countP (isAreaHeading A) = 0 := by
  simp only [stageStatementPars]
  split_ifs <;> simp [isAreaHeading]

theorem progressPars_no_heading (A : String) (evA : List (String × List Entry))
    (ai : List (String × String)) (area : String) :
    (progressPars evA ai area).countP (isAreaHeading A) = 0 := by
  simp only [progressPars]
  split_ifs <;> simp [isAreaHeading, List.countP_cons]

theorem areaSection_count (A : String) (ov : List (String × OverviewV))
    (evA : List (String × List Entry)) (outcomes : List Outcome)
    (yearLevel term : String) (ai : List (String × String)) (n : Nat) (area : String) :
    (areaSection ov evA outcomes yearLevel term ai n area).countP (isAreaHeading A)
      = if area = A then 1 else 0 := by
  rw [areaSection]
  rw [List.countP_cons, List.countP_cons, List.countP_append]
  rw [stageStatementPars_no_heading, progressPars_no_heading]
  rw [isAreaHeading_of_heading]
  have h2 : isAreaHeading A (DocElem.par [trB (term ++ " Expectations:")]) = false := by
    simp [isAreaHeading]
  rw [h2]
  by_cases h : area = A
  · simp [h]
  · simp [h, beq_eq_false_iff_ne.mpr h]

theorem overviewFold_count (A : String) (ov : List (String × OverviewV))
    (evA : List (String × List Entry)) (outcomes : List Outcome)
    (yearLevel term : String) (ai : List (String × String)) :
    ∀ (areas : List String) (n : Nat),
      (overviewFold ov evA outcomes yearLevel term ai areas n).countP (isAreaHeading A)
        = areas.countP (fun a => !skipArea ov evA a && (a == A)) := by
  intro areas
  induction areas with
  | nil => intro n; simp [overviewFold]
  | cons a rest ih =>
      intro n
      rw [List.countP_cons]
      by_cases h : skipArea ov evA a = true
      · rw [show overviewFold ov evA outcomes yearLevel term ai (a :: rest) n
            = overviewFold ov evA outcomes yearLevel term ai rest n from by
            simp [overviewFold, h]]
        rw [ih n]
        simp [h]
      · rw [show overviewFold ov evA outcomes yearLevel term ai (a :: rest) n
            = areaSection ov evA outcomes yearLevel term ai n a
              ++ overviewFold ov evA outcomes yearLevel term ai rest (n + 1) from by
            simp [overviewFold, h]]
        rw [List.countP_append, areaSection_count, ih (n + 1)]
        rw [Bool.not_eq_true] at h
        by_cases ha : a = A
        · subst ha
          simp [h]
          omega
        · simp [h, ha, beq_eq_false_iff_ne.mpr ha]

end OneHome

namespace OneHome

theorem dedupFirstAux_spec :
    ∀ (l seen : List String),
      (dedupFirstAux seen l).Nodup ∧ ∀ x ∈ dedupFirstAux seen l, x ∉ seen := by
  intro l
  induction l with
  | nil => intro seen; simp [dedupFirstAux]
  | cons x rest ih =>
      intro seen
      by_cases h : x ∈ seen
      · rw [show dedupFirstAux seen (x :: rest) = dedupFirstAux seen rest from by
            simp [dedupFirstAux, h]]
        exact ih seen
      · rw [show dedupFirstAux seen (x :: rest)
            = x :: dedupFirstAux (x :: seen) rest from by simp [dedupFirstAux, h]]
        obtain ⟨hnd, hni⟩ := ih (x :: seen)
        refine ⟨List.Pairwise.cons ?_ hnd, ?_⟩
        · intro y hy heq
          exact hni y hy (heq ▸ List.mem_cons_self _ _)
        · intro y hy
          rcases List.mem_cons.mp hy with rfl | hy
          · exact h
          · intro hm
            exact hni y hy (List.mem_cons_of_mem _ hm)

theorem mem_dedupFirstAux :
    ∀ (l seen : List String) (x : String), x ∉ seen →
      (x ∈ dedupFirstAux seen l ↔ x ∈ l) := by
  intro l
  induction l with
  | nil => intro seen x _; simp [dedupFirstAux]
  | cons y rest ih =>
      intro seen x hx
      by_cases h : y ∈ seen
      · rw [show dedupFirstAux seen (y :: rest) = dedupFirstAux seen rest from by
            simp [dedupFirstAux, h]]
        rw [ih seen x hx]
        constructor
        · exact fun hm => List.mem_cons_of_mem _ hm
        · intro hm
          rcases List.mem_cons.mp hm with rfl | hm
          · exact absurd h hx
          · exact hm
      · rw [show dedupFirstAux seen (y :: rest)
            = y :: dedupFirstAux (y :: seen) rest from by simp [dedupFirstAux, h]]
        by_cases hxy : x = y
        · subst hxy
          simp
        · have hx2 : x ∉ y :: seen := by
            intro hm
            rcases List.mem_cons.mp hm with rfl | hm
            · exact hxy rfl
            · exact hx hm
          constructor
          · intro hm
            rcases List.mem_cons.mp hm with rfl | hm
            · exact absurd rfl hxy
            · exact List.mem_cons_of_mem _ ((ih (y :: seen) x hx2).mp hm)
          · intro hm
            rcases List.mem_cons.mp hm with rfl | hm
            · exact absurd rfl hxy
            · exact List.mem_cons_of_mem _ ((ih (y :: seen) x hx2).mpr hm)

theorem countP_and_beq_zero (A : String) (q : String → Bool) :
    ∀ l : List String, A ∉ l → l.countP (fun a => q a && (a == A)) = 0 := by
  intro l
  induction l with
  | nil => intro _; simp
  | cons x rest ih =>
      intro h
      rw [List.countP_cons]
      have hx : (x == A) = false := beq_eq_false_iff_ne.mpr
        (fun heq => h (heq ▸ List.mem_cons_self _ _))
      simp [hx, ih (fun hm => h (List.mem_cons_of_mem _ hm))]

theorem countP_and_beq_one (A : String) (q : String → Bool) (hq : q A = true) :
    ∀ l : List String, l.Nodup → A ∈ l →
      l.countP (fun a => q a && (a == A)) = 1 := by
  intro l
  induction l with
  | nil => intro _ h; simp at h
  | cons x rest ih =>
      intro hnd hmem
      rcases List.pairwise_cons.mp hnd with ⟨hx, hrest⟩
      rw [List.countP_cons]
      rcases List.mem_cons.mp hmem with rfl | hmem
      · have hnotin : A ∉ rest := fun hm => (hx A hm) rfl
        rw [countP_and_beq_zero A q rest hnotin]
        simp [hq]
      · have hb : (x == A) = false := beq_eq_false_iff_ne.mpr (hx A hmem)
        simp [hb, ih hrest hmem]

theorem skipArea_standard (ov : List (String × OverviewV))
    (evA : List (String × List Entry)) (A : String) (hA : A ∈ standardAreas) :
    skipArea ov evA A = false := by
  simp only [standardAreas, List.mem_cons, List.not_mem_nil, or_false] at hA
  rcases hA with rfl | rfl | rfl | rfl | rfl | rfl <;> rfl

theorem fallback_mem_areaSection (ov : List (String × OverviewV))
    (evA : List (String × List Entry)) (outcomes : List Outcome)
    (yearLevel term : String) (ai : List (String × String)) (n : Nat) (area : String)
    (hz : (evidenceArrOf evA area).length = 0)
    (hai : strTruthy (alookup area ai) = false) :
    DocElem.par [trI (fallbackProgressText area)]
      ∈ areaSection ov evA outcomes yearLevel term ai n area := by
  have hp : DocElem.par [trI (fallbackProgressText area)] ∈ progressPars evA ai area := by
    rw [progressPars,
      if_neg (show ¬ strTruthy (alookup area ai) = true from by simp [hai]),
      if_neg (show ¬ (evidenceArrOf evA area).length > 0 from by omega)]
    exact List.mem_cons_of_mem _ (List.mem_cons_self _ _)
  rw [areaSection]
  exact List.mem_cons_of_mem _ (List.mem_cons_of_mem _
    (List.mem_append_right _ hp))

theorem fallback_mem_fold (ov : List (String × OverviewV))
    (evA : List (String × List Entry)) (outcomes : List Outcome)
    (yearLevel term : String) (ai : List (String × String)) (A : String)
    (hsk : skipArea ov evA A = false)
    (hz : (evidenceArrOf evA A).length = 0)
    (hai : strTruthy (alookup A ai) = false) :
    ∀ (areas : List String) (n : Nat), A ∈ areas →
      DocElem.par [trI (fallbackProgressText A)]
        ∈ overviewFold ov evA outcomes yearLevel term ai areas n := by
  intro areas
  induction areas with
  | nil => intro n h; simp at h
  | cons a rest ih =>
      intro n hmem
      rcases List.mem_cons.mp hmem with rfl | hmem
      · rw [show overviewFold ov evA outcomes yearLevel term ai (A :: rest) n
            = areaSection ov evA outcomes yearLevel term ai n A
              ++ overviewFold ov evA outcomes yearLevel term ai rest (n + 1) from by
            simp [overviewFold, hsk]]
        exact List.mem_append_left _
          (fallback_mem_areaSection ov evA outcomes yearLevel term ai n A hz hai)
      · by_cases h : skipArea ov evA a = true
        · rw [show overviewFold ov evA outcomes yearLevel term ai (a :: rest) n
              = overviewFold ov evA outcomes yearLevel term ai rest n from by
              simp [overviewFold, h]]
          exact ih n hmem
        · rw [show overviewFold ov evA outcomes yearLevel term ai (a :: rest) n
              = areaSection ov evA outcomes yearLevel term ai n a
                ++ overviewFold ov evA outcomes yearLevel term ai rest (n + 1) from by
              simp [overviewFold, h]]
          exact List.mem_append_right _ (ih (n + 1) hmem)

/-- Claim C2: for every payload, the composed Learning Areas Overview has
exactly one overview section per standard area (English, Mathematics,
Science & Technology, HSIE, PDHPE, Creative Arts), whatever the overview,
evidence, outcome or AI-summary data; and a standard area with zero
evidence (and no AI progress-summary overlay) receives the explicit
no-evidence fallback statement instead of being omitted. -/
theorem c2_area_overviews (ov : List (String × OverviewV))
    (evA : List (String × List Entry)) (outcomes : List Outcome)
    (yearLevel term : String) (ai : List (String × String))
    (A : String) (hA : A ∈ standardAreas) :
    countAreaHeadings A
        (generateLearningAreaOverviews ov evA outcomes yearLevel term ai) = 1
    ∧ ((evidenceArrOf evA A).length = 0 → strTruthy (alookup A ai) = false →
        DocElem.par [trI (fallbackProgressText A)]
          ∈ generateLearningAreaOverviews ov evA outcomes yearLevel term ai) := by
  have hsk := skipArea_standard ov evA A hA
  have hmembig : A ∈ standardAreas ++ ov.map Prod.fst ++ evA.map Prod.fst :=
    List.mem_append_left _ (List.mem_append_left _ hA)
  have hmemd : A ∈ dedupFirst (standardAreas ++ ov.map Prod.fst ++ evA.map Prod.fst) :=
    (mem_dedupFirstAux _ [] A (by simp)).mpr hmembig
  constructor
  · rw [countAreaHeadings, generateLearningAreaOverviews, overviewFold_count]
    exact countP_and_beq_one A (fun a => !skipArea ov evA a) (by simp [hsk])
      _ (dedupFirstAux_spec _ []).1 hmemd
  · intro hz hai
    rw [generateLearningAreaOverviews]
    exact fallback_mem_fold ov evA outcomes yearLevel term ai A hsk hz hai _ 1 hmemd

/-- Witness for C2 at the English area of an empty payload. -/
theorem c2_area_overviews_witness :
    countAreaHeadings "English"
        (generateLearningAreaOverviews [] [] [] "Stage 2" "Syllabus" []) = 1
    ∧ DocElem.par [trI (fallbackProgressText "English")]
        ∈ generateLearningAreaOverviews [] [] [] "Stage 2" "Syllabus" [] :=
  ⟨(c2_area_overviews [] [] [] "Stage 2" "Syllabus" [] "English" (by decide)).1,
   (c2_area_overviews [] [] [] "Stage 2" "Syllabus" [] "English" (by decide)).2 rfl rfl⟩

end OneHome

namespace OneHome

/-!
### HTTP handlers (src/api/generate-portfolio.js lines 5–302,
src/server.js lines 22–154)

`Date` parsing and `toLocaleDateString` are parameters
(`dateMsJ : JVal → Option Int`, `fmtAU : Int → String`).  The FIX steps
never write `childName`/`yearLevel`, so validation reads the original
fields.
-/

/-- The request-pipeline stages named by the specification. -/
inductive Stage where
  | normalizeInput : Stage
  | classifyAggregate : Stage
  | buildOverviews : Stage
  | composeDocument : Stage
deriving DecidableEq

/-- The request payload fields the handlers read (`none` = absent). -/
structure PData where
  childName : Option JVal := none
  yearLevel : Option JVal := none
  reportingPeriod : Option JVal := none
  parentName : Option JVal := none
  parentname : Option JVal := none
  futurePlans : Option JVal := none
  progressAssessment : Option JVal := none
  evidenceEntries : Option JVal := none
  curriculumOutcomes : Option JVal := none
  learningAreaOverviews : Option JVal := none

/-- `a || b` on JS values. -/
def jOr (a b : Option JVal) : Option JVal := if jsTruthyO a then a else b

/-- First truthy value of `a || b || …`, else the given default. -/
def jvalOrChainO : List (Option JVal) → JVal → JVal
  | [], d => d
  | x :: rest, d => if jsTruthyO x then x.getD d else jvalOrChainO rest d

/-- Split a string at every occurrence of one character (exact model of
`split(sep)` for a single-character separator). -/
def splitCharAux (sep : Char) : List Char → List (List Char)
  | [] => [[]]
  | c :: rest =>
      let groups := splitCharAux sep rest
      if c = sep then [] :: groups
      else
        match groups with
        | g :: gs => (c :: g) :: gs
        | [] => [[c]]

def splitOnChar (sep : Char) (s : String) : List String :=
  (splitCharAux sep s.data).map (fun cs => ⟨cs⟩)

/-- `s.replace(/"/g, '')`. -/
def removeQuotes (s : String) : String := ⟨s.data.filter (fun c => c != '"')⟩

/-- `s.startsWith(p)`. -/
def strStartsWith (s pre : String) : Bool := pre.data.isPrefixOf s.data

/-- `normalizeAreaName` of the API handler (identical table). -/
def jNormalizeArea (v : JVal) : String :=
  if !jsTruthy v then "Other"
  else
    let t := jsTrim (jStringOf v)
    (alookup (lowerStr t) areaMappings).getD t

/-- `formatDate(dateInput)` (api lines 287–302): falsy → placeholder,
Invalid Date → `String(dateInput)`, else the long-form locale date. -/
def formatDateJ (dateMsJ : JVal → Option Int) (fmtAU : Int → String)
    (d : Option JVal) : String :=
  match d with
  | none => "Date not specified"
  | some v =>
      if !jsTruthy v then "Date not specified"
      else
        match dateMsJ v with
        | none => jStringOf v
        | some ms => fmtAU ms

/-- A grouped evidence record as built by FIX 6 (api lines 137–143). -/
structure GEntry where
  title : JVal
  date : String
  description : JVal
  engagement : JVal
  matchedOutcomes : JVal

/-- The learning-area list of one raw entry (api lines 118–124):
`'Learning Areas' || learningAreas || []`, comma-split when a string,
wrapped when not an array. -/
def entryAreas (entry : JVal) : List JVal :=
  match jvalOrChainO [jgetV "Learning Areas" entry, jgetV "learningAreas" entry] (.arr []) with
  | .str s => ((splitOnChar ',' s).map (fun a => removeQuotes (jsTrim a))).map JVal.str
  | .arr l => l
  | other => [other]

/-- The formatted record pushed per area (api lines 137–143). -/
def formatEntry (dateMsJ : JVal → Option Int) (fmtAU : Int → String)
    (entry : JVal) : GEntry :=
  { title := jvalOrChainO [jgetV "Title" entry, jgetV "title" entry] (.str "Untitled"),
    date := formatDateJ dateMsJ fmtAU
      (match jOr (jgetV "Date" entry) (jgetV "date" entry) with
       | some v => some v
       | none => none),
    description := jvalOrChainO
      [jgetV "What Happened?" entry, jgetV "whatHappened" entry, jgetV "description" entry]
      (.str ""),
    engagement := jvalOrChainO
      [jgetV "Child Engagement" entry, jgetV "childEngagement" entry, jgetV "engagement" entry]
      (.str ""),
    matchedOutcomes := jvalOrChainO
      [jgetV "Matched Outcomes 3" entry, jgetV "matchedOutcomes" entry] (.arr []) }

/-- Insertion-ordered per-key append (JS object of arrays). -/
def appendAssoc {β : Type} (k : String) (v : β) :
    List (String × List β) → List (String × List β)
  | [] => [(k, [v])]
  | (k', l) :: rest =>
      if k' = k then (k', l ++ [v]) :: rest
      else (k', l) :: appendAssoc k v rest

/-- FIX 6 (api lines 111–153): group the parsed evidence entries by
normalized learning area, skipping falsy area labels. -/
def buildEvidenceByArea (dateMsJ : JVal → Option Int) (fmtAU : Int → String)
    (entries : List JVal) : List (String × List GEntry) :=
  entries.foldl (fun m entry =>
    (entryAreas entry).foldl (fun m' areaV =>
      if !jsTruthy areaV then m'
      else appendAssoc (jNormalizeArea areaV) (formatEntry dateMsJ fmtAU entry) m') m) []

/-- A derived per-area overview as built by FIX 7 (api lines 184–193). -/
structure AOverview where
  stageStatement : String
  progressSummary : String
  outcomes : List (String × String)

/-- FIX 7 grouping of outcomes by normalized area (api lines 163–170). -/
def groupOutcomesByArea (outcomes : List JVal) : List (String × List JVal) :=
  outcomes.foldl (fun m oc =>
    appendAssoc
      (jNormalizeArea (jvalOrChainO
        [jgetV "Learning Area" oc, jgetV "learningArea" oc] (.str "Other")))
      oc m) []

/-- FIX 7 (api lines 156–197): build `learningAreaOverviews` from the
outcome catalogue and the grouped evidence. -/
def buildOverviewsFromOutcomes (evByArea : List (String × List GEntry))
    (outcomes : List JVal) : List (String × AOverview) :=
  (groupOutcomesByArea outcomes).map (fun p =>
    let evidenceForArea := (alookup p.1 evByArea).getD []
    let descs := String.intercalate "; "
      (((p.2.take 5).map (fun o => jStringOf (jvalOrChainO
          [jgetV "Outcome Description" o, jgetV "outcomeDescription" o] (.str "")))).filter
        (fun d => d.length > 0))
    (p.1,
     { stageStatement := "In " ++ p.1
         ++ ", Stage 2 students work towards outcomes including: " ++ descs,
       progressSummary :=
         if evidenceForArea.length > 0 then
           toString evidenceForArea.length
             ++ " learning evidence entries documented for this area."
         else "",
       outcomes := p.2.map (fun o =>
         (jStringOf (jvalOrChainO
             [jgetV "Outcome Title" o, jgetV "outcomeTitle" o, jgetV "code" o] (.str "")),
          jStringOf (jvalOrChainO
             [jgetV "Outcome Description" o, jgetV "outcomeDescription" o,
              jgetV "description" o] (.str "")))) }))

/-- FIX 4/5 string coercion (api lines 69–107): trim, bracket-wrap when
not starting with `[`, decode (failure → `[]`), then force an array. -/
def parseEntriesField (dec : String → Option JVal) : Option JVal → List JVal
  | some (.str s) =>
      let t := jsTrim s
      let t2 := if strStartsWith t "[" then t else "[" ++ t ++ "]"
      (match dec t2 with
       | some (.arr l) => l
       | some _ => []
       | none => [])
  | some (.arr l) => l
  | _ => []

/-- `Object.keys(x).length === 0` on a JS object value. -/
def jvalObjEmpty : Option JVal → Bool
  | some (.obj f) => decide (f.length = 0)
  | _ => false

/-- Outcome of the API handler: HTTP disposition plus the pipeline
stages that ran before it was produced. -/
inductive ApiResult where
  | badRequest : ApiResult
  | ok : ApiResult
deriving DecidableEq

structure ApiOutcome where
  result : ApiResult
  stages : List Stage
  evidenceByArea : List (String × List GEntry)
  overviews : List (String × AOverview)

/-- The API handler `module.exports` (src/api/generate-portfolio.js
lines 5–250): FIX 1–7 run first, required-field validation only after
them, composition (generatePortfolio → Packer → blob upload) last.
The FIX 1–3 rewrites of `parentName`/`futurePlans`/`progressAssessment`
touch neither the validated fields nor the grouping inputs. -/
def apiHandler (dec : String → Option JVal) (dateMsJ : JVal → Option Int)
    (fmtAU : Int → String) (p : PData) : ApiOutcome :=
  let entries := parseEntriesField dec p.evidenceEntries
  let outcomesL := parseEntriesField dec p.curriculumOutcomes
  let evByArea :=
    if entries.length > 0 then buildEvidenceByArea dateMsJ fmtAU entries else []
  let fix7 := decide (outcomesL.length > 0)
    && (!jsTruthyO p.learningAreaOverviews || jvalObjEmpty p.learningAreaOverviews)
  let ovs := if fix7 then buildOverviewsFromOutcomes evByArea outcomesL else []
  let trace := Stage.normalizeInput
      :: ((if entries.length > 0 then [Stage.classifyAggregate] else [])
        ++ (if fix7 then [Stage.buildOverviews] else []))
  if !jsTruthyO p.childName || !jsTruthyO p.yearLevel then
    { result := .badRequest, stages := trace, evidenceByArea := evByArea, overviews := ovs }
  else
    { result := .ok, stages := trace ++ [Stage.composeDocument],
      evidenceByArea := evByArea, overviews := ovs }

/-- Outcome of the Express handler. -/
inductive ServerResult where
  | badRequest : ServerResult
  | ok : List JVal → List JVal → ServerResult

/-- The `/generate-portfolio` Express handler (src/server.js lines
22–154): required-field validation happens *before* any normalization
(`parseMakeComData`) or composition. -/
def serverHandler (dec : String → Option JVal) (p : PData) :
    ServerResult × List Stage :=
  if !jsTruthyO p.childName || !jsTruthyO p.yearLevel then
    (.badRequest, [])
  else
    (.ok (parseMakeComData dec p.evidenceEntries)
       (parseMakeComData dec p.curriculumOutcomes),
     [Stage.normalizeInput, Stage.composeDocument])

end OneHome

namespace OneHome

/-- Claim C6 counterexample: a payload missing `childName` but carrying
one evidence entry is rejected with the validation error, yet the
classification/aggregation stage (FIX 6 grouping by normalized learning
area) has already run before the abort — the API handler validates only
after FIX 1–7. -/
theorem c6_validation_order_cex :
    (apiHandler (fun _ => none) (fun _ => none) (fun _ => "")
        { yearLevel := some (.str "Stage 2"),
          evidenceEntries := some (.arr [.obj [("Title", .str "X"),
            ("Learning Areas", .str "Science")]]) }).result = .badRequest
    ∧ Stage.classifyAggregate ∈ (apiHandler (fun _ => none) (fun _ => none) (fun _ => "")
        { yearLevel := some (.str "Stage 2"),
          evidenceEntries := some (.arr [.obj [("Title", .str "X"),
            ("Learning Areas", .str "Science")]]) }).stages
    ∧ Stage.composeDocument ∉ (apiHandler (fun _ => none) (fun _ => none) (fun _ => "")
        { yearLevel := some (.str "Stage 2"),
          evidenceEntries := some (.arr [.obj [("Title", .str "X"),
            ("Learning Areas", .str "Science")]]) }).stages := by
  refine ⟨rfl, by decide, by decide⟩

/-- Claim C6 (amended): a payload with missing (falsy) `childName` or
`yearLevel` always fails with the validation error and no document is
produced — composition never runs — in both handlers; the Express
handler aborts before every stage, but the API handler runs its
normalization and, when evidence/outcome data is present, the
classification/aggregation and overview-building stages *before* the
validation check. -/
theorem c6_missing_fields_validation (dec : String → Option JVal)
    (dateMsJ : JVal → Option Int) (fmtAU : Int → String) (p : PData)
    (h : jsTruthyO p.childName = false ∨ jsTruthyO p.yearLevel = false) :
    (apiHandler dec dateMsJ fmtAU p).result = .badRequest
    ∧ Stage.composeDocument ∉ (apiHandler dec dateMsJ fmtAU p).stages
    ∧ serverHandler dec p = (.badRequest, []) := by
  have hcond : (!jsTruthyO p.childName || !jsTruthyO p.yearLevel) = true := by
    rcases h with h | h <;> simp [h]
  refine ⟨?_, ?_, ?_⟩
  · simp [apiHandler, hcond]
  · simp only [apiHandler]
    rw [hcond]
    simp only [if_true]
    intro hmem
    rcases List.mem_cons.mp hmem with hmem | hmem
    · cases hmem
    · rcases List.mem_append.mp hmem with hmem | hmem
      · split at hmem
        · revert hmem; decide
        · revert hmem; decide
      · split at hmem
        · revert hmem; decide
        · revert hmem; decide
  · simp [serverHandler, hcond]

/-- Witness for C6's amended theorem at a concrete payload with only a
`yearLevel`. -/
theorem c6_missing_fields_validation_witness :
    (apiHandler (fun _ => none) (fun _ => none) (fun _ => "")
        { yearLevel := some (.str "Stage 2") }).result = .badRequest
    ∧ Stage.composeDocument ∉ (apiHandler (fun _ => none) (fun _ => none) (fun _ => "")
        { yearLevel := some (.str "Stage 2") }).stages
    ∧ serverHandler (fun _ => none) { yearLevel := some (.str "Stage 2") }
        = (.badRequest, []) :=
  c6_missing_fields_validation (fun _ => none) (fun _ => none) (fun _ => "")
    { yearLevel := some (.str "Stage 2") } (Or.inl rfl)

end OneHome

namespace OneHome

/-!
### Document Composer — `generatePortfolio`
(src/generate-portfolio.js lines 11–563)

The wall-clock `currentDate` string and the date parser are parameters.
The `futurePlans`/`progressAssessment` string-coercion branches (lines
35–69) are elided by typing those payload fields as objects.
-/

/-- Split at every occurrence of any of the given characters.  Combined
with the subsequent truthy-trim filters this coincides with the
`/[\n\r]+/` and `/[,\n]+/` run-splits (runs only add empty groups, which
those filters drop). -/
def splitAnyChar (seps : List Char) : List Char → List (List Char)
  | [] => [[]]
  | c :: rest =>
      let groups := splitAnyChar seps rest
      if c ∈ seps then [] :: groups
      else
        match groups with
        | g :: gs => (c :: g) :: gs
        | [] => [[c]]

def splitAny (seps : List Char) (s : String) : List String :=
  (splitAnyChar seps s.data).map (fun cs => ⟨cs⟩)

/-- The lookahead `(?=To\s)` of the goal-splitting regex,
case-insensitive. -/
def isToBoundary : List Char → Bool
  | t :: o :: w :: _ =>
      (t = 'T' || t = 't') && (o = 'o' || o = 'O') && isJsWs w
  | _ => false

/-- One-or-more whitespace characters, maximal run. -/
def wsRun : List Char → Option (List Char)
  | c :: rest => if isJsWs c then some (rest.dropWhile isJsWs) else none
  | [] => none

/-- A match of the goal separator `(?:\.?\s+)(?=To\s)/i` at the head of
the suffix, returning the remainder after the separator. -/
def goalSepAt : List Char → Option (List Char)
  | '.' :: rest =>
      match wsRun rest with
      | some rest' => if isToBoundary rest' then some rest' else none
      | none => none
  | cs =>
      match wsRun cs with
      | some rest' => if isToBoundary rest' then some rest' else none
      | none => none

/-- A match of the strategy separator `,\s+(?=[A-Z])` at the head. -/
def stratSepAt : List Char → Option (List Char)
  | ',' :: rest =>
      (match wsRun rest with
       | some rest' =>
           (match rest' with
            | c :: _ => if isUpperCh c then some rest' else none
            | [] => none)
       | none => none)
  | _ => none

/-- Left-to-right regex split driven by a separator matcher (fuel is the
remaining length, which bounds the recursion). -/
def regexSplitAux (sepAt : List Char → Option (List Char)) :
    Nat → List Char → List (List Char)
  | 0, cs => [cs]
  | _ + 1, [] => [[]]
  | fuel + 1, c :: rest =>
      match sepAt (c :: rest) with
      | some after => [] :: regexSplitAux sepAt fuel after
      | none =>
          match regexSplitAux sepAt fuel rest with
          | g :: gs => (c :: g) :: gs
          | [] => [[c]]

def regexSplit (sepAt : List Char → Option (List Char)) (s : String) : List String :=
  (regexSplitAux sepAt s.data.length s.data).map (fun cs => ⟨cs⟩)

/-- Parent-assessment object (`progressAssessment` /
`enhancedProgressAssessment`). -/
structure PAssess where
  cognitive : Option String := none
  social : Option String := none
  emotional : Option String := none
  physical : Option String := none

/-- Future-plans object. -/
structure FPlans where
  overview : Option String := none
  goals : Option String := none
  strategies : Option String := none
  plannedResources : Option String := none

/-- The typed generator payload (`none` = absent property). -/
structure PInput where
  childName : Option String := none
  yearLevel : Option String := none
  reportingPeriod : Option String := none
  parentName : Option String := none
  parentname : Option String := none
  state : Option String := none
  curriculum : Option String := none
  learningAreaOverviews : List (String × OverviewV) := []
  evidenceByArea : List (String × List Entry) := []
  progressAssessment : PAssess := {}
  futurePlans : FPlans := {}
  curriculumOutcomes : List Outcome := []
  aiProgressSummaries : List (String × String) := []
  enhancedProgressAssessment : PAssess := {}
  enhancedFuturePlansOverview : Option String := none

/-- The header parameters after destructuring defaults (lines 13–33). -/
structure PParams where
  childName : String
  yearLevel : String
  reportingPeriod : String
  finalParentName : String
  state : String
  curriculum : String
deriving DecidableEq

/-- Lines 13–33: destructuring defaults (applied only to absent fields)
plus the `parentName || parentname || 'Parent/Carer'` chain. -/
def extractParams (p : PInput) : PParams :=
  { childName := p.childName.getD "Child",
    yearLevel := p.yearLevel.getD "Stage 2",
    reportingPeriod := p.reportingPeriod.getD "Current Period",
    finalParentName := firstTruthyStr [p.parentName, p.parentname] "Parent/Carer",
    state := p.state.getD "NSW",
    curriculum := p.curriculum.getD "NSW Syllabus" }

/-- The title page (lines 83–115). -/
def titlePage (q : PParams) (currentDate : String) : List DocElem :=
  [DocElem.par [trB "Home Education Learning Portfolio"],
   DocElem.par [tr q.childName],
   DocElem.par [tr q.yearLevel],
   DocElem.par [tr q.reportingPeriod],
   DocElem.par [tr ("Prepared by: " ++ q.finalParentName)],
   DocElem.par [tr ("Date: " ++ currentDate)],
   DocElem.pageBreak]

/-- Section 1, Learning Program Overview (lines 117–180). -/
def section1 (q : PParams) (curriculumTerm : String) : List DocElem :=
  [DocElem.heading 1 [tr "1. Learning Program Overview"],
   DocElem.heading 2 [tr "1.1 Syllabus Framework"],
   DocElem.par [tr ("This learning portfolio demonstrates " ++ q.childName
     ++ "'s educational progress during " ++ q.reportingPeriod
     ++ ". Our home education program aligns with the " ++ q.curriculum
     ++ " and covers all key learning areas required under " ++ q.state
     ++ " homeschooling regulations.")],
   DocElem.heading 2 [tr "1.2 Compliance with Disability Standards for Education 2005"],
   DocElem.par [tr "This educational program has been developed in accordance with the Disability Standards for Education 2005 (Cth), which ensure that students with disability are able to access and participate in education on the same basis as students without disability."],
   DocElem.par [tr (q.childName ++ " has a neurodivergent learning profile, and our program incorporates reasonable adjustments as outlined in the Standards. These adjustments are not considered \"special\" or \"extra\" support, but rather the necessary adaptations that enable "
     ++ q.childName ++ " to access the " ++ curriculumTerm ++ " effectively.")],
   DocElem.par [trB "Key adjustments implemented:"],
   DocElem.bullet [tr "Flexible pacing that honours the child's autonomy and reduces demand-related anxiety"],
   DocElem.bullet [tr "Collaborative approach to learning activities, allowing the child to maintain a sense of control and choice"],
   DocElem.bullet [tr "Integration of special interests and preferred learning modalities to enhance engagement"],
   DocElem.bullet [tr "Low-demand presentation of learning opportunities that reduces pressure while maintaining educational rigour"],
   DocElem.bullet [tr "Recognition that anxiety and overwhelm are communication, not misbehaviour, requiring adaptive responses"],
   DocElem.par [tr ("These adjustments are fundamental to our educational approach and enable "
     ++ q.childName ++ " to demonstrate learning and progress toward " ++ curriculumTerm
     ++ " outcomes in ways that respect neurodivergent learning patterns.")],
   DocElem.heading 2 [tr "1.3 Educational Philosophy and Approach"],
   DocElem.par [tr ("Our home education program recognises that meaningful learning occurs when children feel safe, autonomous, and connected. We provide a rich learning environment that allows natural curiosity to drive engagement with "
     ++ curriculumTerm ++ " content, while maintaining clear alignment with "
     ++ q.curriculum ++ " outcomes.")]]

end OneHome

namespace OneHome

/-- Section 4, Parent Assessment of Progress (lines 232–277), with the
enhanced → parent → placeholder fallback chain. -/
def section4 (p : PInput) : List DocElem :=
  [DocElem.pageBreak,
   DocElem.heading 1 [tr "4. Parent Assessment of Progress"],
   DocElem.heading 2 [tr "4.1 Cognitive Development"],
   DocElem.par [tr (firstTruthyStr
     [p.enhancedProgressAssessment.cognitive, p.progressAssessment.cognitive]
     "No assessment provided.")],
   DocElem.heading 2 [tr "4.2 Social Development"],
   DocElem.par [tr (firstTruthyStr
     [p.enhancedProgressAssessment.social, p.progressAssessment.social]
     "No assessment provided.")],
   DocElem.heading 2 [tr "4.3 Emotional Development"],
   DocElem.par [tr (firstTruthyStr
     [p.enhancedProgressAssessment.emotional, p.progressAssessment.emotional]
     "No assessment provided.")],
   DocElem.heading 2 [tr "4.4 Physical Development"],
   DocElem.par [tr (firstTruthyStr
     [p.enhancedProgressAssessment.physical, p.progressAssessment.physical]
     "No assessment provided.")]]

/-- Section 5, Future Learning Plans (lines 279–408): overview fallback,
goal bullets split on newlines or before capitalized `To `, strategy
bullets split on newlines or before `, X`, optional planned resources. -/
def section5 (p : PInput) : List DocElem :=
  let futureOverviewText :=
    firstTruthyStr [p.enhancedFuturePlansOverview, p.futurePlans.overview] ""
  let goals := strD p.futurePlans.goals ""
  let strategies := strD p.futurePlans.strategies ""
  let plannedResources := strD p.futurePlans.plannedResources ""
  [DocElem.pageBreak, DocElem.heading 1 [tr "5. Future Learning Plans"]]
  ++ (if futureOverviewText ≠ "" ∧ jsTrim futureOverviewText ≠ "" then
        [DocElem.par [tr futureOverviewText]]
      else
        [DocElem.par [trI "No future plans overview provided."]])
  ++ [DocElem.heading 2 [tr "5.1 Learning Goals"]]
  ++ (if goals ≠ "" ∧ jsTrim goals ≠ "" then
        let goalsList :=
          if goals.data.contains '\n' then
            (splitAny ['\n', '\r'] goals).filter (fun g => jsTrim g ≠ "")
          else
            (regexSplit goalSepAt goals).filter (fun g => jsTrim g ≠ "")
        if goalsList.length > 0 then
          goalsList.map (fun g => DocElem.bullet [tr (jsTrim g)])
        else []
      else
        [DocElem.par [trI "No learning goals specified."]])
  ++ [DocElem.heading 2 [tr "5.2 Planned Strategies"]]
  ++ (if strategies ≠ "" ∧ jsTrim strategies ≠ "" then
        let strategiesList :=
          if strategies.data.contains '\n' then
            (splitAny ['\n', '\r'] strategies).filter (fun g => jsTrim g ≠ "")
          else
            (regexSplit stratSepAt strategies).filter (fun g => jsTrim g ≠ "")
        if strategiesList.length > 1 then
          strategiesList.map (fun g => DocElem.bullet [tr (jsTrim g)])
        else
          [DocElem.par [tr strategies]]
      else
        [DocElem.par [trI "No strategies specified."]])
  ++ (if plannedResources ≠ "" ∧ jsTrim plannedResources ≠ "" then
        [DocElem.heading 2 [tr "5.3 Planned Resources"],
         DocElem.par [tr plannedResources]]
      else [])

/-- Section 6, Resources (lines 410–478). -/
def section6 (p : PInput) : List DocElem :=
  let extractedResources := extractResourcesFromEvidence p.evidenceByArea
  let plannedResourcesText := strD p.futurePlans.plannedResources ""
  [DocElem.pageBreak,
   DocElem.heading 1 [tr "6. Resources for Learning"],
   DocElem.heading 2 [tr "6.1 Resources Used During This Period"],
   DocElem.par [tr "The following resources supported learning across syllabus areas during this reporting period:"]]
  ++ (if extractedResources.length > 0 then
        extractedResources.map (fun r => DocElem.bullet [tr r])
      else
        [DocElem.par [trI "Resources will be documented as the learning program develops."]])
  ++ [DocElem.heading 2 [tr "6.2 Planned Resources for Next Learning Period"],
      DocElem.par [tr "We will continue using many of the resources that have proven effective, supplemented with additional materials as learning needs develop."]]
  ++ (if plannedResourcesText ≠ "" ∧ jsTrim plannedResourcesText ≠ "" then
        ((splitAny [',', '\n'] plannedResourcesText).filter
          (fun r => jsTrim r ≠ "")).map (fun r => DocElem.bullet [tr (jsTrim r)])
      else
        [DocElem.par [trI "Planned resources will be identified based on emerging learning interests and needs."]])

/-- `generatePortfolio(portfolioData)` as the ordered section-node list
(lines 11–563; docx styling/numbering config elided).  Total: no input
can make it fail — required-field validation exists only in the HTTP
handlers. -/
def docModel (dateMs : String → Option Int) (currentDate : String)
    (p : PInput) : List DocElem :=
  let q := extractParams p
  let curriculumTerm := if q.state = "NSW" then "syllabus" else "curriculum"
  let curriculumTermCap := if q.state = "NSW" then "Syllabus" else "Curriculum"
  titlePage q currentDate
  ++ section1 q curriculumTerm
  ++ ([DocElem.pageBreak,
       DocElem.heading 1 [tr "2. Learning Areas Overview"],
       DocElem.par [tr ("The following provides an overview of " ++ q.curriculum
         ++ " expectations for " ++ q.yearLevel
         ++ " students in each learning area, along with a brief summary of "
         ++ q.childName ++ "'s progress toward these standards.")]]
      ++ generateLearningAreaOverviews p.learningAreaOverviews p.evidenceByArea
          p.curriculumOutcomes q.yearLevel curriculumTermCap p.aiProgressSummaries)
  ++ ([DocElem.pageBreak,
       DocElem.heading 1 [tr "3. Detailed Learning Evidence"],
       DocElem.par [tr "Our learning activities integrate learning into everyday life experiences, encouraging self-directed inquiry, real-world problem-solving, and project-based activities that emerge from our child's passions."],
       DocElem.par [tr "In our homeschool program, we use flexible learning models that ensure all key syllabus areas are covered, but not always through a traditional, linear sequence. Instead of progressing subject-by-subject in a fixed order, learning happens naturally across multiple areas at once, often integrated into real-world projects, play, or child-led inquiry. This is how we create an interdisciplinary approach to education."],
       DocElem.par [tr ("This approach allows " ++ q.childName
         ++ " to engage deeply and meaningfully with the syllabus in ways that suit their developmental stage, interests, and learning style. It also aligns with the principles of our flexible learning model and inclusive education practices, ensuring that learning remains accessible, engaging, and personalised.")]]
      ++ generateEvidenceSectionsFlat dateMs p.evidenceByArea)
  ++ section4 p
  ++ section5 p
  ++ section6 p

end OneHome

namespace OneHome

/-- The parameter values the generator substitutes when every header
field is absent. -/
def defaultParams : PParams :=
  { childName := "Child", yearLevel := "Stage 2",
    reportingPeriod := "Current Period", finalParentName := "Parent/Carer",
    state := "NSW", curriculum := "NSW Syllabus" }

/-- Claim C10: the core generator never fails on missing required
fields — with `childName`, `yearLevel`, `reportingPeriod`, `parentName`
(both spellings), `state` and `curriculum` all absent it substitutes the
fixed defaults `'Child'`, `'Stage 2'`, `'Current Period'`,
`'Parent/Carer'`, `'NSW'`, `'NSW Syllabus'` and still composes a
complete document (the title page carries the default child name);
`docModel` is total, required-field validation living only in the HTTP
handlers. -/
theorem c10_generator_defaults (dateMs : String → Option Int)
    (currentDate : String) (p : PInput)
    (h1 : p.childName = none) (h2 : p.yearLevel = none)
    (h3 : p.reportingPeriod = none) (h4 : p.parentName = none)
    (h5 : p.parentname = none) (h6 : p.state = none)
    (h7 : p.curriculum = none) :
    extractParams p = defaultParams
    ∧ DocElem.par [tr "Child"] ∈ docModel dateMs currentDate p
    ∧ (docModel dateMs currentDate p).length > 0 := by
  have hq : extractParams p = defaultParams := by
    simp [extractParams, defaultParams, h1, h2, h3, h4, h5, h6, h7, firstTruthyStr]
  have hmem : DocElem.par [tr "Child"] ∈ docModel dateMs currentDate p := by
    have ht : DocElem.par [tr "Child"] ∈ titlePage (extractParams p) currentDate := by
      rw [hq]
      simp [titlePage, defaultParams]
    simp only [docModel]
    exact List.mem_append_left _ (List.mem_append_left _ (List.mem_append_left _
      (List.mem_append_left _ (List.mem_append_left _
        (List.mem_append_left _ ht)))))
  exact ⟨hq, hmem, List.length_pos.mpr (List.ne_nil_of_mem hmem)⟩

/-- Witness for C10 at the empty payload. -/
theorem c10_generator_defaults_witness :
    extractParams {} = defaultParams
    ∧ DocElem.par [tr "Child"] ∈ docModel (fun _ => none) "1 January 2026" {}
    ∧ (docModel (fun _ => none) "1 January 2026" {}).length > 0 :=
  c10_generator_defaults (fun _ => none) "1 January 2026" {}
    rfl rfl rfl rfl rfl rfl rfl

end OneHome
